import Mathlib

/-!
Shallow embedding of `src/parking_lot/parking.py`: a slot allocator with
size-classed zones, contiguous-run ("adjacent") placement, sorted free lists
and per-class parked counts.  Python floats are modelled as rationals (the
configured sizes 0.3, 0.8, 1.0, 3.0 are exact in both representations for
every comparison and ceiling the code performs), Python dicts as association
lists or functions with the defaultdict default, and the fallible
`vehicle_availability` lookup as an `Option`.
-/

/-- Zone size classes (`ZoneType` in `parking.py`). -/
inductive ZoneType
  | CYCLE
  | COMPACT
  | REGULAR
  | LARGE
deriving DecidableEq, Repr

/-- Vehicle size classes (`VehicleType` in `parking.py`). -/
inductive VehicleType
  | CYCLE
  | CAR
  | VAN
deriving DecidableEq, Repr

/-- A parking zone (`Zone.__init__`): a size class, per-spot size, the
adjacent-spanning flag, the spot array (occupant vehicle id or `none`) and
the free list of spot indices. -/
@[ext]
structure Zone where
  type_ : ZoneType
  size : ℚ
  adjacent : Bool
  spots : List (Option Nat)
  free : List Nat
deriving DecidableEq, Repr

/-- `Zone(type_, size, num_spots, adjacent)`: all spots empty, free list
`[0, ..., num_spots - 1]`. -/
def mkZone (t : ZoneType) (size : ℚ) (numSpots : Nat) (adjacent : Bool) : Zone :=
  { type_ := t, size := size, adjacent := adjacent,
    spots := List.replicate numSpots none, free := List.range numSpots }

instance : Inhabited Zone :=
  ⟨mkZone ZoneType.CYCLE 0 0 false⟩

/-- Per-class fixed vehicle size (the `match` in `Vehicle.__init__`). -/
def vehicleSize : VehicleType → ℚ
  | VehicleType.CYCLE => 3/10
  | VehicleType.CAR => 8/10
  | VehicleType.VAN => 3

/-- Per-class zone priority list (the `match` in `Vehicle.__init__`). -/
def vehiclePriority : VehicleType → List ZoneType
  | VehicleType.CYCLE => [ZoneType.CYCLE, ZoneType.COMPACT, ZoneType.REGULAR, ZoneType.LARGE]
  | VehicleType.CAR => [ZoneType.COMPACT, ZoneType.REGULAR, ZoneType.LARGE]
  | VehicleType.VAN => [ZoneType.LARGE, ZoneType.REGULAR]

/-- A vehicle (`Vehicle.__init__`): the uuid is injected as a `Nat`
identifier; the initial empty-tuple location is `none`. -/
structure Vehicle where
  id_ : Nat
  type_ : VehicleType
  location : Option (ZoneType × Nat × List Nat)
  size : ℚ
  priority : List ZoneType
deriving DecidableEq, Repr

/-- `Vehicle(type_)` with an externally supplied identifier. -/
def mkVehicle (t : VehicleType) (id : Nat) : Vehicle :=
  { id_ := id, type_ := t, location := none,
    size := vehicleSize t, priority := vehiclePriority t }

/-- `bisect.insort` on a list of naturals: insert to the right of equals. -/
def insort : List Nat → Nat → List Nat
  | [], x => [x]
  | y :: rest, x => if x < y then x :: y :: rest else y :: insort rest x

/-- Dict lookup on the `vehicles` association list. -/
def lookupA : List (Nat × Vehicle) → Nat → Option Vehicle
  | [], _ => none
  | (k, w) :: rest, id => if k = id then some w else lookupA rest id

/-- Dict assignment `self.vehicles[id] = v`: replace or append. -/
def setA : List (Nat × Vehicle) → Nat → Vehicle → List (Nat × Vehicle)
  | [], id, w => [(id, w)]
  | (k, w0) :: rest, id, w => if k = id then (id, w) :: rest else (k, w0) :: setA rest id w

/-- Dict deletion `del self.vehicles[id]`: drop the (unique) entry. -/
def eraseA : List (Nat × Vehicle) → Nat → List (Nat × Vehicle)
  | [], _ => []
  | (k, w0) :: rest, id => if k = id then rest else (k, w0) :: eraseA rest id

/-- The parking lot (`Lot.__init__`): zones grouped by type in insertion
order (a `defaultdict(list)`, hence a total function with default `[]`),
the per-class parked count (`defaultdict(int)`), and the dict of currently
parked vehicles keyed by identifier. -/
structure Lot where
  zones : ZoneType → List Zone
  count : VehicleType → Int
  vehicles : List (Nat × Vehicle)

/-- `Lot(zones)`: group the constructor's zone list by type, keeping order. -/
def mkLot (zs : List Zone) : Lot :=
  { zones := fun t => zs.filter (fun z => decide (z.type_ = t)),
    count := fun _ => 0, vehicles := [] }

/-- Write an updated zone back at its position, modelling the Python
mutation of the zone object aliased at `self.zones[zt.name][zi]`. -/
def Lot.setZone (lot : Lot) (zt : ZoneType) (zi : Nat) (z : Zone) : Lot :=
  { lot with zones := fun t => if t = zt then (lot.zones zt).set zi z else lot.zones t }

/-- `self.count[t.name] += d`. -/
def Lot.bumpCount (lot : Lot) (t : VehicleType) (d : Int) : Lot :=
  { lot with count := fun t2 => if t2 = t then lot.count t2 + d else lot.count t2 }

/-- `Lot.num_parked_vehicle`: read the per-class count (defaultdict read,
so absent keys read as zero). -/
def Lot.numParkedVehicle (lot : Lot) (t : VehicleType) : Int :=
  lot.count t

/-- `Lot.park_single`: pop the head of the free list, put the vehicle at
that spot, record the one-element location and add one to the count.  The
`[]` case is unreachable from `park_first_available`, which checks
`len(zone.free)` first. -/
def Lot.parkSingle (lot : Lot) (z : Zone) (zt : ZoneType) (zi : Nat) (v : Vehicle) :
    Lot × Vehicle :=
  match z.free with
  | [] => (lot, v)
  | spotIndex :: restFree =>
    let z2 : Zone := { z with spots := z.spots.set spotIndex (some v.id_), free := restFree }
    let v2 : Vehicle := { v with location := some (z.type_, zi, [spotIndex]) }
    ((lot.setZone zt zi z2).bumpCount v.type_ 1, v2)

/-- The cursor loop of `Lot.find_adjacent_free_spots`.  While at least
`numSpots` entries remain at or after `index`, test the window of
`numSpots` free-list entries starting at `index`: accept when
`last - first + 1 == numSpots`, recording the window's start position in
the free list and skipping `numSpots + 1`, else advance by one.  With
`first` set, return at the first accepted window. -/
def findAdjacentAux (free : List Nat) (numSpots : Nat) (first : Bool) (index : Nat) :
    List Nat :=
  if h : index + numSpots ≤ free.length then
    let firstSpot := free.getD index 0
    let lastSpot := free.getD (index + numSpots - 1) 0
    if ((lastSpot : Int) - (firstSpot : Int)) + 1 = (numSpots : Int) then
      if first then [index]
      else index :: findAdjacentAux free numSpots first (index + numSpots + 1)
    else
      findAdjacentAux free numSpots first (index + 1)
  else
    []
termination_by free.length + 1 - index
decreasing_by
  all_goals omega

/-- `Lot.find_adjacent_free_spots(free, num_spots, first)` (it never reads
`self`): run the cursor loop from position 0. -/
def findAdjacentFreeSpots (free : List Nat) (numSpots : Nat) (first : Bool) : List Nat :=
  findAdjacentAux free numSpots first 0

/-- The occupation loop of `Lot.park_adjacent`: `n` times pop the free-list
entry at position `p`, occupy that spot and append it to the occupied list.
Returns the new spot array, the new free list and the popped spot indices. -/
def occupyRun (spots : List (Option Nat)) (free : List Nat) (p : Nat) (vid : Nat) :
    Nat → List (Option Nat) × List Nat × List Nat
  | 0 => (spots, free, [])
  | n + 1 =>
    match free[p]? with
    | none => (spots, free, [])
    | some spotIndex =>
      let r := occupyRun (spots.set spotIndex (some vid)) (free.take p ++ free.drop (p + 1)) p vid n
      (r.1, r.2.1, spotIndex :: r.2.2)

/-- `Lot.park_adjacent`: compute the required run length
`ceil(vehicle.size / zone.size)`, search for the first contiguous run, and
on success occupy all its spots, record the multi-element location and add
the run length to the parked count (exactly as the source does). -/
def Lot.parkAdjacent (lot : Lot) (z : Zone) (zt : ZoneType) (zi : Nat) (v : Vehicle) :
    Lot × Vehicle :=
  let numAdjacent : Nat := (⌈v.size / z.size⌉).toNat
  match findAdjacentFreeSpots z.free numAdjacent true with
  | [] => (lot, v)
  | p :: _ =>
    let r := occupyRun z.spots z.free p v.id_ numAdjacent
    let z2 : Zone := { z with spots := r.1, free := r.2.1 }
    let v2 : Vehicle := { v with location := some (z.type_, zi, r.2.2) }
    ((lot.setZone zt zi z2).bumpCount v.type_ (numAdjacent : Int), v2)

/-- The inner loop of `Lot.park_first_available` over the zones of one
type: skip zones with an empty free list; at the first zone where the
vehicle fits a single spot park there and stop; else if the zone supports
adjacent spanning attempt `park_adjacent` and stop (the source sets
`parked = True` whether or not a run was found); else log and continue. -/
def Lot.parkZonesOfType (lot : Lot) (v : Vehicle) (zt : ZoneType) :
    List Zone → Nat → Lot × Vehicle × Bool
  | [], _ => (lot, v, false)
  | z :: rest, zi =>
    if z.free.length ≠ 0 then
      if v.size ≤ z.size then
        let r := lot.parkSingle z zt zi v
        (r.1, r.2, true)
      else if z.adjacent then
        let r := lot.parkAdjacent z zt zi v
        (r.1, r.2, true)
      else
        lot.parkZonesOfType v zt rest (zi + 1)
    else
      lot.parkZonesOfType v zt rest (zi + 1)

/-- The outer loop of `Lot.park_first_available` over the vehicle's zone
priority list, stopping as soon as the inner loop reports `parked`. -/
def Lot.parkPriority (lot : Lot) (v : Vehicle) : List ZoneType → Lot × Vehicle
  | [] => (lot, v)
  | zt :: rest =>
    let r := lot.parkZonesOfType v zt (lot.zones zt) 0
    if r.2.2 then (r.1, r.2.1)
    else r.1.parkPriority r.2.1 rest

/-- `Lot.park_first_available(vehicle)`. -/
def Lot.parkFirstAvailable (lot : Lot) (v : Vehicle) : Lot × Vehicle :=
  lot.parkPriority v v.priority

/-- `Lot.add_vehicle(type_)` with the uuid injected: create the vehicle,
try to park it, and store it under its identifier when it got a location. -/
def Lot.addVehicle (lot : Lot) (t : VehicleType) (id : Nat) : Lot × Vehicle :=
  let r := lot.parkFirstAvailable (mkVehicle t id)
  match r.2.location with
  | none => (r.1, r.2)
  | some _ => ({ r.1 with vehicles := setA r.1.vehicles r.2.id_ r.2 }, r.2)

/-- One iteration of the removal loop in `Lot.remove_vehicle`: clear the
spot and insert its index back into the free list at its sorted position. -/
def releaseSpot (z : Zone) (spotIndex : Nat) : Zone :=
  { z with spots := z.spots.set spotIndex none, free := insort z.free spotIndex }

/-- `Lot.remove_vehicle(vehicle)`: when the identifier is currently parked,
clear every spot of the stored location, re-insert each index into the free
list, subtract one from the count and delete the dict entry; otherwise log
a warning and change nothing.  (The inner `match`es on a stored location
and a valid zone index are always `some` for vehicles the lot handed out.) -/
def Lot.removeVehicle (lot : Lot) (v : Vehicle) : Lot :=
  match lookupA lot.vehicles v.id_ with
  | none => lot
  | some _ =>
    match v.location with
    | none => lot
    | some (zt, zi, spotIndices) =>
      match (lot.zones zt)[zi]? with
      | none => lot
      | some z =>
        let z2 := spotIndices.foldl releaseSpot z
        { (lot.setZone zt zi z2).bumpCount v.type_ (-1) with
          vehicles := eraseA lot.vehicles v.id_ }

/-- `Lot.vehicle_availability(type_)`: cycles and cars sum the free counts
over their priority zones; vans sum the free counts of the large zones plus
the number of length-`ceil(size / regular_zones[0].size)` runs in each
regular zone.  The source reads `regular_zones[0].size` before checking
that any regular zone exists; that `IndexError` is modelled as `none`. -/
def Lot.vehicleAvailability (lot : Lot) (t : VehicleType) : Option Nat :=
  let v := mkVehicle t 0
  match t with
  | VehicleType.CYCLE | VehicleType.CAR =>
    some (v.priority.map (fun zt => ((lot.zones zt).map (fun z => z.free.length)).sum)).sum
  | VehicleType.VAN =>
    match lot.zones ZoneType.REGULAR with
    | [] => none
    | z0 :: _ =>
      let n : Nat := (⌈v.size / z0.size⌉).toNat
      some ((((lot.zones ZoneType.LARGE).map (fun z => z.free.length)).sum) +
        (((lot.zones ZoneType.REGULAR).map
          (fun z => (findAdjacentFreeSpots z.free n false).length)).sum))

/-! ## Scenario lots, invariants and reachability -/

/-- A lot with a single spanning-capable regular zone of three unit-size
spots; a van (size 3) placed here spans all three. -/
def vanLot : Lot := mkLot [mkZone ZoneType.REGULAR 1 3 true]

/-- A spanning-capable regular zone with free spots `{0, 2, 4}` (spots 1
and 3 occupied): no contiguous run of three exists. -/
def blockedZone : Zone :=
  { type_ := ZoneType.REGULAR, size := 1, adjacent := true,
    spots := [none, some 100, none, some 101, none], free := [0, 2, 4] }

/-- A second, completely free spanning-capable regular zone: the run
`[0, 1, 2]` is available here. -/
def openZone : Zone := mkZone ZoneType.REGULAR 1 3 true

/-- The two-regular-zone lot: `blockedZone` is searched before `openZone`. -/
def twoZoneLot : Lot := mkLot [blockedZone, openZone]

/-! ## Invariants -/

/-- Invariant of a single zone: the free list is strictly ascending and
holds exactly the in-bounds spot indices whose spot is empty. -/
def ZoneInv (z : Zone) : Prop :=
  List.Sorted (· < ·) z.free ∧ ∀ i : Nat, i ∈ z.free ↔ z.spots[i]? = some none

/-- Every zone of the lot is stored under its own type, has a positive
per-spot size (as every zone constructed by the source's configuration
does; a non-positive size would make the source's `ceil(size / size)`
raise) and satisfies `ZoneInv`. -/
def LotZonesOk (lot : Lot) : Prop :=
  ∀ t : ZoneType, ∀ z ∈ lot.zones t, z.type_ = t ∧ 0 < z.size ∧ ZoneInv z

/-- A stored vehicle's handle is consistent with the ledger: it is keyed by
its own identifier and its location names an existing zone in which every
listed spot is occupied by this vehicle, without duplicates. -/
def HandleOk (lot : Lot) (id : Nat) (v : Vehicle) : Prop :=
  v.id_ = id ∧ ∃ zt zi idxs z,
    v.location = some (zt, zi, idxs) ∧ (lot.zones zt)[zi]? = some z ∧
    idxs.Nodup ∧ ∀ i ∈ idxs, z.spots[i]? = some (some id)

/-- The full lot invariant. -/
def LotInv (lot : Lot) : Prop :=
  LotZonesOk lot ∧ (lot.vehicles.map Prod.fst).Nodup ∧
  ∀ id v, lookupA lot.vehicles id = some v → HandleOk lot id v

/-- How one zone changes when a set `idxs` of previously free spots is
occupied by vehicle `vid`: everything but `spots`/`free` is untouched, the
occupied spots were empty and now hold `vid`, other spots are unchanged,
the old free list is a permutation of `idxs` plus the new one, and the
invariant is maintained. -/
def ZoneMod (z z2 : Zone) (idxs : List Nat) (vid : Nat) : Prop :=
  z2.type_ = z.type_ ∧ z2.size = z.size ∧ z2.adjacent = z.adjacent ∧
  z2.spots.length = z.spots.length ∧ idxs.Nodup ∧ idxs ≠ [] ∧
  (∀ i ∈ idxs, z.spots[i]? = some none) ∧
  (∀ i ∈ idxs, z2.spots[i]? = some (some vid)) ∧
  (∀ j, j ∉ idxs → z2.spots[j]? = z.spots[j]?) ∧
  List.Perm z.free (idxs ++ z2.free) ∧
  ZoneInv z2

/-- The lot-level description of a successful placement of `v2`: one zone
at the location recorded in `v2` was modified per `ZoneMod`, every other
zone and the vehicles dict are untouched (the count is not constrained). -/
def ParkSuccess (lot lot2 : Lot) (v2 : Vehicle) : Prop :=
  ∃ zt zi idxs z z2,
    v2.location = some (zt, zi, idxs) ∧
    (lot.zones zt)[zi]? = some z ∧
    lot2.zones zt = (lot.zones zt).set zi z2 ∧
    (∀ t, t ≠ zt → lot2.zones t = lot.zones t) ∧
    lot2.vehicles = lot.vehicles ∧
    ZoneMod z z2 idxs v2.id_

/-- The lot states reachable from a freshly constructed lot (any list of
freshly built zones with positive spot sizes, matching the source's
configurations) by any sequence of `add_vehicle` and `remove_vehicle`
calls, where removal is invoked on a vehicle object previously handed out
and still parked (in the source the caller's object and the stored one are
the same object). -/
inductive Reachable : Lot → Prop
  | init (specs : List (ZoneType × ℚ × Nat × Bool)) (hpos : ∀ s ∈ specs, 0 < s.2.1) :
      Reachable (mkLot (specs.map (fun s => mkZone s.1 s.2.1 s.2.2.1 s.2.2.2)))
  | add (lot : Lot) (t : VehicleType) (id : Nat) : Reachable lot →
      Reachable (lot.addVehicle t id).1
  | remove (lot : Lot) (id : Nat) (v : Vehicle) : Reachable lot →
      lookupA lot.vehicles id = some v → Reachable (lot.removeVehicle v)

/-- The reachable lot used by the C6 witness: one cycle zone, then a van
request that is rejected (no large or regular zones exist). -/
def c6WitnessLot : Lot :=
  ((mkLot ([(ZoneType.CYCLE, (3 : ℚ)/10, 2, false)].map
    (fun s => mkZone s.1 s.2.1 s.2.2.1 s.2.2.2))).addVehicle VehicleType.VAN 7).1

/-- A spanning-capable regular zone whose smallest free index (0) does not
start the first contiguous run of three: spots `{0, 2, 3, 4}` are free and
spot 1 is occupied by vehicle 7. -/
def c5Zone : Zone :=
  { type_ := ZoneType.REGULAR, size := 1, adjacent := true,
    spots := [none, some 7, none, none, none], free := [0, 2, 3, 4] }

def c5Lot : Lot := mkLot [c5Zone]

/-! ## Unfolding lemmas for the search and parking loops -/

theorem findAdjacentAux_stop (free : List Nat) (numSpots : Nat) (first : Bool) (index : Nat)
    (h : free.length < index + numSpots) :
    findAdjacentAux free numSpots first index = [] := by
  rw [findAdjacentAux]
  simp only [dif_neg (by omega : ¬ index + numSpots ≤ free.length)]

theorem findAdjacentAux_accept (free : List Nat) (numSpots : Nat) (first : Bool) (index : Nat)
    (h : index + numSpots ≤ free.length)
    (hacc : ((free.getD (index + numSpots - 1) 0 : Int) - (free.getD index 0 : Int)) + 1
      = (numSpots : Int)) :
    findAdjacentAux free numSpots first index =
      if first then [index]
      else index :: findAdjacentAux free numSpots first (index + numSpots + 1) := by
  rw [findAdjacentAux]
  simp only [dif_pos h, if_pos hacc]

theorem findAdjacentAux_reject (free : List Nat) (numSpots : Nat) (first : Bool) (index : Nat)
    (h : index + numSpots ≤ free.length)
    (hacc : ¬ ((free.getD (index + numSpots - 1) 0 : Int) - (free.getD index 0 : Int)) + 1
      = (numSpots : Int)) :
    findAdjacentAux free numSpots first index =
      findAdjacentAux free numSpots first (index + 1) := by
  rw [findAdjacentAux]
  simp only [dif_pos h, if_neg hacc]

theorem parkZonesOfType_nil (lot : Lot) (v : Vehicle) (zt : ZoneType) (zi : Nat) :
    lot.parkZonesOfType v zt [] zi = (lot, v, false) :=
  rfl

theorem parkZonesOfType_skip (lot : Lot) (v : Vehicle) (zt : ZoneType) (z : Zone)
    (rest : List Zone) (zi : Nat) (h : z.free.length = 0) :
    lot.parkZonesOfType v zt (z :: rest) zi = lot.parkZonesOfType v zt rest (zi + 1) := by
  rw [Lot.parkZonesOfType]
  simp only [h, ne_eq, not_true_eq_false, if_false]

theorem parkZonesOfType_single (lot : Lot) (v : Vehicle) (zt : ZoneType) (z : Zone)
    (rest : List Zone) (zi : Nat) (h : z.free.length ≠ 0) (hfit : v.size ≤ z.size) :
    lot.parkZonesOfType v zt (z :: rest) zi =
      ((lot.parkSingle z zt zi v).1, (lot.parkSingle z zt zi v).2, true) := by
  rw [Lot.parkZonesOfType]
  simp only [if_pos h, if_pos hfit]

theorem parkZonesOfType_adjacent (lot : Lot) (v : Vehicle) (zt : ZoneType) (z : Zone)
    (rest : List Zone) (zi : Nat) (h : z.free.length ≠ 0) (hfit : ¬ v.size ≤ z.size)
    (hadj : z.adjacent = true) :
    lot.parkZonesOfType v zt (z :: rest) zi =
      ((lot.parkAdjacent z zt zi v).1, (lot.parkAdjacent z zt zi v).2, true) := by
  rw [Lot.parkZonesOfType]
  simp only [if_pos h, if_neg hfit, hadj, if_true]

theorem parkZonesOfType_noFit (lot : Lot) (v : Vehicle) (zt : ZoneType) (z : Zone)
    (rest : List Zone) (zi : Nat) (h : z.free.length ≠ 0) (hfit : ¬ v.size ≤ z.size)
    (hadj : z.adjacent = false) :
    lot.parkZonesOfType v zt (z :: rest) zi = lot.parkZonesOfType v zt rest (zi + 1) := by
  rw [Lot.parkZonesOfType]
  simp only [if_pos h, if_neg hfit, hadj, Bool.false_eq_true, if_false]

theorem parkPriority_nil (lot : Lot) (v : Vehicle) : lot.parkPriority v [] = (lot, v) :=
  rfl

theorem parkPriority_parked (lot lot2 : Lot) (v v2 : Vehicle) (zt : ZoneType)
    (rest : List ZoneType) (h : lot.parkZonesOfType v zt (lot.zones zt) 0 = (lot2, v2, true)) :
    lot.parkPriority v (zt :: rest) = (lot2, v2) := by
  rw [Lot.parkPriority]
  simp only [h, if_true]

theorem parkPriority_notParked (lot lot2 : Lot) (v v2 : Vehicle) (zt : ZoneType)
    (rest : List ZoneType) (h : lot.parkZonesOfType v zt (lot.zones zt) 0 = (lot2, v2, false)) :
    lot.parkPriority v (zt :: rest) = lot2.parkPriority v2 rest := by
  rw [Lot.parkPriority]
  simp only [h, Bool.false_eq_true, if_false]

theorem addVehicle_notPlaced (lot : Lot) (t : VehicleType) (id : Nat)
    (h : (lot.parkFirstAvailable (mkVehicle t id)).2.location = none) :
    lot.addVehicle t id = lot.parkFirstAvailable (mkVehicle t id) := by
  rw [Lot.addVehicle]
  rw [h]

theorem addVehicle_placed (lot : Lot) (t : VehicleType) (id : Nat) (loc : ZoneType × Nat × List Nat)
    (h : (lot.parkFirstAvailable (mkVehicle t id)).2.location = some loc) :
    lot.addVehicle t id =
      ({ (lot.parkFirstAvailable (mkVehicle t id)).1 with
        vehicles := setA (lot.parkFirstAvailable (mkVehicle t id)).1.vehicles
          (lot.parkFirstAvailable (mkVehicle t id)).2.id_
          (lot.parkFirstAvailable (mkVehicle t id)).2 },
        (lot.parkFirstAvailable (mkVehicle t id)).2) := by
  rw [Lot.addVehicle]
  rw [h]

/-! ## Claim C3: the contiguous-run search algorithm -/

/-- Claim C3: for every sorted free list and positive run length, the search
examines the window of `length` consecutive free-list entries at the cursor,
accepts it exactly when `last - first = length - 1`, records the window's
start position in the free list, advances the cursor by `length + 1` after
an accepted window and by `1` after a rejected one, terminates when fewer
than `length` entries remain at or after the cursor, and with `first_only`
set returns immediately after the first accepted window. -/
theorem claim_C3_run_search (free : List Nat) (length : Nat) (first : Bool) (index : Nat)
    (hpos : 0 < length) (hsorted : List.Sorted (· < ·) free) :
    (free.length < index + length → findAdjacentAux free length first index = []) ∧
    (index + length ≤ free.length →
      ((((free.getD (index + length - 1) 0 : Int) - (free.getD index 0 : Int))
          = (length : Int) - 1) →
        findAdjacentAux free length first index =
          if first then [index]
          else index :: findAdjacentAux free length first (index + length + 1)) ∧
      (¬ (((free.getD (index + length - 1) 0 : Int) - (free.getD index 0 : Int))
          = (length : Int) - 1) →
        findAdjacentAux free length first index =
          findAdjacentAux free length first (index + 1))) := by
  refine ⟨fun h => findAdjacentAux_stop free length first index h, fun h => ⟨?_, ?_⟩⟩
  · intro hacc
    exact findAdjacentAux_accept free length first index h (by omega)
  · intro hacc
    exact findAdjacentAux_reject free length first index h (by omega)

/-- Witness for C3 at the free list `[0, 1, 2, 4]`, run length 3, cursor 0:
the window `[0, 1, 2]` is accepted and recorded as position 0. -/
theorem claim_C3_run_search_witness :
    0 < 3 ∧ List.Sorted (· < ·) [0, 1, 2, 4] ∧
      (([0, 1, 2, 4] : List Nat).length < 0 + 3 →
        findAdjacentAux [0, 1, 2, 4] 3 false 0 = []) ∧
      (0 + 3 ≤ ([0, 1, 2, 4] : List Nat).length →
        (((([0, 1, 2, 4] : List Nat).getD (0 + 3 - 1) 0 : Int)
            - (([0, 1, 2, 4] : List Nat).getD 0 0 : Int)) = (3 : Int) - 1 →
          findAdjacentAux [0, 1, 2, 4] 3 false 0 =
            if false then [0] else 0 :: findAdjacentAux [0, 1, 2, 4] 3 false (0 + 3 + 1)) ∧
        (¬ ((([0, 1, 2, 4] : List Nat).getD (0 + 3 - 1) 0 : Int)
            - (([0, 1, 2, 4] : List Nat).getD 0 0 : Int)) = (3 : Int) - 1 →
          findAdjacentAux [0, 1, 2, 4] 3 false 0 =
            findAdjacentAux [0, 1, 2, 4] 3 false (0 + 1))) :=
  ⟨by decide, by decide,
    claim_C3_run_search [0, 1, 2, 4] 3 false 0 (by decide) (by decide)⟩

/-! ## Claim C9: release of an unknown identifier -/

/-- Claim C9: `remove_vehicle` on a vehicle whose identifier has no live
entry in the parked-vehicles dict (never parked, or already removed) is a
no-op: it reports the caller bug without raising and returns the lot with
every zone, every count and the vehicle dict unchanged. -/
theorem claim_C9_unknown_requester (lot : Lot) (v : Vehicle)
    (h : lookupA lot.vehicles v.id_ = none) :
    lot.removeVehicle v = lot := by
  rw [Lot.removeVehicle, h]

/-- Witness for C9: removing a never-parked vehicle from a fresh lot. -/
theorem claim_C9_unknown_requester_witness :
    lookupA (mkLot [mkZone ZoneType.LARGE 3 2 false]).vehicles
        (mkVehicle VehicleType.CAR 5).id_ = none ∧
      (mkLot [mkZone ZoneType.LARGE 3 2 false]).removeVehicle (mkVehicle VehicleType.CAR 5)
        = mkLot [mkZone ZoneType.LARGE 3 2 false] :=
  ⟨rfl, claim_C9_unknown_requester _ _ rfl⟩

/-! ## Claim C10: van availability requires a regular zone -/

/-- Claim C10: the van branch of `vehicle_availability` reads
`regular_zones[0].size` before checking that any regular zone exists: with
no zone of the `REGULAR` class the query fails with an out-of-bounds access
(modelled as `none`) no matter what the `LARGE` zones hold, and it yields
an integer count exactly when at least one `REGULAR` zone exists. -/
theorem claim_C10_van_availability (lot : Lot) :
    (lot.zones ZoneType.REGULAR = [] →
      lot.vehicleAvailability VehicleType.VAN = none) ∧
    (lot.zones ZoneType.REGULAR ≠ [] →
      (lot.vehicleAvailability VehicleType.VAN).isSome = true) := by
  constructor
  · intro h
    rw [Lot.vehicleAvailability]
    rw [h]
  · intro h
    rw [Lot.vehicleAvailability]
    cases hz : lot.zones ZoneType.REGULAR with
    | nil => exact absurd hz h
    | cons z0 rest => rfl

/-- Witness for C10: a lot with only a `LARGE` zone (two free large slots)
makes the van query fail, and a lot with one `REGULAR` zone yields a count. -/
theorem claim_C10_van_availability_witness :
    ((mkLot [mkZone ZoneType.LARGE 3 2 false]).zones ZoneType.REGULAR = [] ∧
      (mkLot [mkZone ZoneType.LARGE 3 2 false]).vehicleAvailability VehicleType.VAN = none) ∧
    ((mkLot [mkZone ZoneType.REGULAR 1 2 true]).zones ZoneType.REGULAR ≠ [] ∧
      ((mkLot [mkZone ZoneType.REGULAR 1 2 true]).vehicleAvailability
        VehicleType.VAN).isSome = true) :=
  ⟨⟨rfl, (claim_C10_van_availability _).1 rfl⟩,
    ⟨fun h => List.noConfusion h, (claim_C10_van_availability _).2 (fun h => List.noConfusion h)⟩⟩

/-! ## Claim C8: single-slot placement -/

/-- Claim C8: in a zone whose (sorted) free list is non-empty, the
single-slot path takes the head of the free list, which is its smallest
element; and as soon as the vehicle fits one slot (`size ≤ zone.size`) the
inner parking loop commits to `park_single` at this zone — even when the
zone supports adjacent spanning — never to the contiguous-run path. -/
theorem claim_C8_single_slot (lot : Lot) (v : Vehicle) (zt : ZoneType) (z : Zone)
    (rest : List Zone) (zi : Nat) (hsorted : List.Sorted (· < ·) z.free)
    (hne : z.free ≠ []) (hfit : v.size ≤ z.size) :
    (∀ i ∈ z.free, z.free.headI ≤ i) ∧
    lot.parkZonesOfType v zt (z :: rest) zi =
      ((lot.parkSingle z zt zi v).1, (lot.parkSingle z zt zi v).2, true) ∧
    (lot.parkSingle z zt zi v).2.location = some (z.type_, zi, [z.free.headI]) := by
  refine ⟨?_, parkZonesOfType_single lot v zt z rest zi
    (fun hl => hne (List.length_eq_zero.mp hl)) hfit, ?_⟩
  · intro i hi
    cases hf : z.free with
    | nil => exact absurd hf hne
    | cons a l =>
      rw [hf] at hi hsorted
      rcases List.mem_cons.mp hi with h1 | h1
      · simp [h1]
      · exact le_of_lt ((List.sorted_cons.mp hsorted).1 i h1)
  · cases hf : z.free with
    | nil => exact absurd hf hne
    | cons a l =>
      rw [Lot.parkSingle, hf]
      rfl

/-- Witness for C8: a van that fits a single slot of a spanning-capable
3-per-slot zone is parked on the single-slot path at the smallest free
index. -/
theorem claim_C8_single_slot_witness :
    List.Sorted (· < ·) (mkZone ZoneType.REGULAR 3 2 true).free ∧
    (mkZone ZoneType.REGULAR 3 2 true).free ≠ [] ∧
    (mkVehicle VehicleType.VAN 1).size ≤ (mkZone ZoneType.REGULAR 3 2 true).size ∧
    ((∀ i ∈ (mkZone ZoneType.REGULAR 3 2 true).free,
        (mkZone ZoneType.REGULAR 3 2 true).free.headI ≤ i) ∧
      (mkLot []).parkZonesOfType (mkVehicle VehicleType.VAN 1) ZoneType.REGULAR
          [mkZone ZoneType.REGULAR 3 2 true] 0 =
        (((mkLot []).parkSingle (mkZone ZoneType.REGULAR 3 2 true) ZoneType.REGULAR 0
            (mkVehicle VehicleType.VAN 1)).1,
          ((mkLot []).parkSingle (mkZone ZoneType.REGULAR 3 2 true) ZoneType.REGULAR 0
            (mkVehicle VehicleType.VAN 1)).2, true) ∧
      ((mkLot []).parkSingle (mkZone ZoneType.REGULAR 3 2 true) ZoneType.REGULAR 0
          (mkVehicle VehicleType.VAN 1)).2.location =
        some ((mkZone ZoneType.REGULAR 3 2 true).type_, 0,
          [(mkZone ZoneType.REGULAR 3 2 true).free.headI])) :=
  ⟨by decide, by decide, by norm_num [mkVehicle, vehicleSize, mkZone],
    claim_C8_single_slot (mkLot []) (mkVehicle VehicleType.VAN 1) ZoneType.REGULAR
      (mkZone ZoneType.REGULAR 3 2 true) [] 0 (by decide) (by decide)
      (by norm_num [mkVehicle, vehicleSize, mkZone])⟩

/-! ## Claim C1: the parked count after spanning placements -/

theorem vanLot_parkAdjacent_eval :
    vanLot.parkAdjacent (mkZone ZoneType.REGULAR 1 3 true) ZoneType.REGULAR 0
      (mkVehicle VehicleType.VAN 0) =
    ((vanLot.setZone ZoneType.REGULAR 0
        { type_ := ZoneType.REGULAR, size := 1, adjacent := true,
          spots := [some 0, some 0, some 0], free := [] }).bumpCount VehicleType.VAN 3,
      { mkVehicle VehicleType.VAN 0 with
        location := some (ZoneType.REGULAR, 0, [0, 1, 2]) }) := by
  have hceil : ⌈(mkVehicle VehicleType.VAN 0).size / (mkZone ZoneType.REGULAR 1 3 true).size⌉
      = (3 : Int) := by
    norm_num [mkVehicle, vehicleSize, mkZone]
  have hnum : (⌈(mkVehicle VehicleType.VAN 0).size
      / (mkZone ZoneType.REGULAR 1 3 true).size⌉).toNat = 3 := by rw [hceil]; rfl
  rw [Lot.parkAdjacent]
  rw [hnum]
  have hfind : findAdjacentFreeSpots (mkZone ZoneType.REGULAR 1 3 true).free 3 true = [0] := by
    simp [findAdjacentFreeSpots, findAdjacentAux, mkZone]
  rw [hfind]
  have hocc : occupyRun (mkZone ZoneType.REGULAR 1 3 true).spots
      (mkZone ZoneType.REGULAR 1 3 true).free 0 (mkVehicle VehicleType.VAN 0).id_ 3
      = ([some 0, some 0, some 0], [], [0, 1, 2]) := by decide
  simp only [hocc]
  rfl

theorem vanLot_addVehicle_eval :
    vanLot.addVehicle VehicleType.VAN 0 =
    ({ (vanLot.setZone ZoneType.REGULAR 0
          { type_ := ZoneType.REGULAR, size := 1, adjacent := true,
            spots := [some 0, some 0, some 0], free := [] }).bumpCount VehicleType.VAN 3 with
        vehicles := setA ((vanLot.setZone ZoneType.REGULAR 0
          { type_ := ZoneType.REGULAR, size := 1, adjacent := true,
            spots := [some 0, some 0, some 0], free := [] }).bumpCount VehicleType.VAN 3).vehicles
          0 ({ mkVehicle VehicleType.VAN 0 with
            location := some (ZoneType.REGULAR, 0, [0, 1, 2]) }) },
      { mkVehicle VehicleType.VAN 0 with
        location := some (ZoneType.REGULAR, 0, [0, 1, 2]) }) := by
  have hzone : vanLot.parkZonesOfType (mkVehicle VehicleType.VAN 0) ZoneType.REGULAR
      (vanLot.zones ZoneType.REGULAR) 0 =
      ((vanLot.setZone ZoneType.REGULAR 0
          { type_ := ZoneType.REGULAR, size := 1, adjacent := true,
            spots := [some 0, some 0, some 0], free := [] }).bumpCount VehicleType.VAN 3,
        { mkVehicle VehicleType.VAN 0 with
          location := some (ZoneType.REGULAR, 0, [0, 1, 2]) }, true) := by
    have hstep := parkZonesOfType_adjacent vanLot (mkVehicle VehicleType.VAN 0) ZoneType.REGULAR
      (mkZone ZoneType.REGULAR 1 3 true) [] 0 (by decide)
      (by norm_num [mkVehicle, vehicleSize, mkZone]) rfl
    have hz2 : vanLot.zones ZoneType.REGULAR = [mkZone ZoneType.REGULAR 1 3 true] := rfl
    rw [hz2, hstep, vanLot_parkAdjacent_eval]
  have hpfa : vanLot.parkFirstAvailable (mkVehicle VehicleType.VAN 0) =
      ((vanLot.setZone ZoneType.REGULAR 0
          { type_ := ZoneType.REGULAR, size := 1, adjacent := true,
            spots := [some 0, some 0, some 0], free := [] }).bumpCount VehicleType.VAN 3,
        { mkVehicle VehicleType.VAN 0 with
          location := some (ZoneType.REGULAR, 0, [0, 1, 2]) }) := by
    show vanLot.parkPriority (mkVehicle VehicleType.VAN 0)
      [ZoneType.LARGE, ZoneType.REGULAR] = _
    rw [parkPriority_notParked vanLot vanLot (mkVehicle VehicleType.VAN 0)
      (mkVehicle VehicleType.VAN 0) ZoneType.LARGE [ZoneType.REGULAR] rfl]
    exact parkPriority_parked _ _ _ _ _ _ hzone
  rw [addVehicle_placed vanLot VehicleType.VAN 0 (ZoneType.REGULAR, 0, [0, 1, 2])
    (by rw [hpfa])]
  rw [hpfa]
  rfl

/-- Claim C1, evaluated on the code: one successful spanning allocation of
a van (and no release) leaves the van parked count at 3, not 1 — the code
adds the run length `num_adjacent`, not one, in `park_adjacent` — and after
the matching release (N = 1, M = 1) the count is 2, not 0: each spanning
allocate changes the count by the run length while each release changes it
by exactly one. -/
theorem claim_C1_parked_count :
    (vanLot.addVehicle VehicleType.VAN 0).1.numParkedVehicle VehicleType.VAN = 3 ∧
    (vanLot.addVehicle VehicleType.VAN 0).2.location = some (ZoneType.REGULAR, 0, [0, 1, 2]) ∧
    ((vanLot.addVehicle VehicleType.VAN 0).1.removeVehicle
      (vanLot.addVehicle VehicleType.VAN 0).2).numParkedVehicle VehicleType.VAN = 2 := by
  rw [vanLot_addVehicle_eval]
  exact ⟨rfl, rfl, rfl⟩

/-! ## Claim C2: the spanning attempt stops the whole search -/

theorem twoZoneLot_parkAdjacent_eval :
    twoZoneLot.parkAdjacent blockedZone ZoneType.REGULAR 0 (mkVehicle VehicleType.VAN 0) =
      (twoZoneLot, mkVehicle VehicleType.VAN 0) := by
  have hceil : ⌈(mkVehicle VehicleType.VAN 0).size / blockedZone.size⌉ = (3 : Int) := by
    norm_num [mkVehicle, vehicleSize, blockedZone]
  have hnum : (⌈(mkVehicle VehicleType.VAN 0).size / blockedZone.size⌉).toNat = 3 := by
    rw [hceil]; rfl
  rw [Lot.parkAdjacent]
  rw [hnum]
  have hfind : findAdjacentFreeSpots blockedZone.free 3 true = [] := by
    simp [findAdjacentFreeSpots, findAdjacentAux, blockedZone]
  rw [hfind]

/-- Claim C2, evaluated on the code: in a lot whose first regular zone has
free spots but no contiguous run of three and whose second regular zone
holds the free run `[0, 1, 2]`, allocating a van is rejected (no location,
and the lot is returned untouched) even though a later zone instance in the
van's priority order could accommodate it — the inner loop sets its parked
flag after `park_adjacent` without checking that a run was found, so the
search stops instead of continuing to the next zone instance. -/
theorem claim_C2_priority_exhaustion :
    (twoZoneLot.addVehicle VehicleType.VAN 0).2.location = none ∧
    (twoZoneLot.addVehicle VehicleType.VAN 0).1 = twoZoneLot ∧
    findAdjacentFreeSpots openZone.free 3 true = [0] := by
  have hzone : twoZoneLot.parkZonesOfType (mkVehicle VehicleType.VAN 0) ZoneType.REGULAR
      (twoZoneLot.zones ZoneType.REGULAR) 0 =
      (twoZoneLot, mkVehicle VehicleType.VAN 0, true) := by
    have hz2 : twoZoneLot.zones ZoneType.REGULAR = [blockedZone, openZone] := rfl
    rw [hz2, parkZonesOfType_adjacent twoZoneLot (mkVehicle VehicleType.VAN 0) ZoneType.REGULAR
      blockedZone [openZone] 0 (by decide)
      (by norm_num [mkVehicle, vehicleSize, blockedZone]) rfl, twoZoneLot_parkAdjacent_eval]
  have hpfa : twoZoneLot.parkFirstAvailable (mkVehicle VehicleType.VAN 0) =
      (twoZoneLot, mkVehicle VehicleType.VAN 0) := by
    show twoZoneLot.parkPriority (mkVehicle VehicleType.VAN 0)
      [ZoneType.LARGE, ZoneType.REGULAR] = _
    rw [parkPriority_notParked twoZoneLot twoZoneLot (mkVehicle VehicleType.VAN 0)
      (mkVehicle VehicleType.VAN 0) ZoneType.LARGE [ZoneType.REGULAR] rfl]
    exact parkPriority_parked _ _ _ _ _ _ hzone
  have hadd : twoZoneLot.addVehicle VehicleType.VAN 0 =
      (twoZoneLot, mkVehicle VehicleType.VAN 0) := by
    rw [addVehicle_notPlaced twoZoneLot VehicleType.VAN 0 (by rw [hpfa]; rfl)]
    exact hpfa
  refine ⟨?_, ?_, ?_⟩
  · rw [hadd]
    rfl
  · rw [hadd]
  · simp [findAdjacentFreeSpots, findAdjacentAux, openZone, mkZone]

theorem parkAdjacent_loc (lot : Lot) (z : Zone) (zt : ZoneType) (zi : Nat) (v : Vehicle) :
    lot.parkAdjacent z zt zi v = (lot, v) ∨
    ∃ l, (lot.parkAdjacent z zt zi v).2.location = some l := by
  rw [Lot.parkAdjacent]
  cases findAdjacentFreeSpots z.free ((⌈v.size / z.size⌉).toNat) true with
  | nil => exact Or.inl rfl
  | cons p rest => exact Or.inr ⟨_, rfl⟩

theorem parkSingle_loc (lot : Lot) (z : Zone) (zt : ZoneType) (zi : Nat) (v : Vehicle)
    (hne : z.free.length ≠ 0) :
    ∃ l, (lot.parkSingle z zt zi v).2.location = some l := by
  rw [Lot.parkSingle]
  cases hf : z.free with
  | nil => exact absurd (by rw [hf]; rfl) hne
  | cons a l => exact ⟨_, rfl⟩

theorem parkZonesOfType_false_id (zs : List Zone) :
    ∀ (zi : Nat) (lot lot2 : Lot) (v v2 : Vehicle) (zt : ZoneType),
    lot.parkZonesOfType v zt zs zi = (lot2, v2, false) → lot2 = lot ∧ v2 = v := by
  induction zs with
  | nil =>
    intro zi lot lot2 v v2 zt h
    rw [parkZonesOfType_nil] at h
    simp only [Prod.mk.injEq] at h
    exact ⟨h.1.symm, h.2.1.symm⟩
  | cons z rest ih =>
    intro zi lot lot2 v v2 zt h
    by_cases hfree : z.free.length = 0
    · rw [parkZonesOfType_skip lot v zt z rest zi hfree] at h
      exact ih (zi + 1) lot lot2 v v2 zt h
    · by_cases hfit : v.size ≤ z.size
      · rw [parkZonesOfType_single lot v zt z rest zi hfree hfit] at h
        simp only [Prod.mk.injEq] at h
        exact absurd h.2.2 (by decide)
      · cases hadj : z.adjacent
        · rw [parkZonesOfType_noFit lot v zt z rest zi hfree hfit hadj] at h
          exact ih (zi + 1) lot lot2 v v2 zt h
        · rw [parkZonesOfType_adjacent lot v zt z rest zi hfree hfit hadj] at h
          simp only [Prod.mk.injEq] at h
          exact absurd h.2.2 (by decide)

theorem parkZonesOfType_noLoc_id (zs : List Zone) :
    ∀ (zi : Nat) (lot lot2 : Lot) (v v2 : Vehicle) (zt : ZoneType) (b : Bool),
    v.location = none → lot.parkZonesOfType v zt zs zi = (lot2, v2, b) →
    v2.location = none → lot2 = lot ∧ v2 = v := by
  induction zs with
  | nil =>
    intro zi lot lot2 v v2 zt b hv h hloc
    rw [parkZonesOfType_nil] at h
    simp only [Prod.mk.injEq] at h
    exact ⟨h.1.symm, h.2.1.symm⟩
  | cons z rest ih =>
    intro zi lot lot2 v v2 zt b hv h hloc
    by_cases hfree : z.free.length = 0
    · rw [parkZonesOfType_skip lot v zt z rest zi hfree] at h
      exact ih (zi + 1) lot lot2 v v2 zt b hv h hloc
    · by_cases hfit : v.size ≤ z.size
      · rw [parkZonesOfType_single lot v zt z rest zi hfree hfit] at h
        simp only [Prod.mk.injEq] at h
        obtain ⟨l, hl⟩ := parkSingle_loc lot z zt zi v hfree
        rw [h.2.1] at hl
        rw [hloc] at hl
        exact absurd hl (by simp)
      · cases hadj : z.adjacent
        · rw [parkZonesOfType_noFit lot v zt z rest zi hfree hfit hadj] at h
          exact ih (zi + 1) lot lot2 v v2 zt b hv h hloc
        · rw [parkZonesOfType_adjacent lot v zt z rest zi hfree hfit hadj] at h
          simp only [Prod.mk.injEq] at h
          rcases parkAdjacent_loc lot z zt zi v with hid | ⟨l, hl⟩
          · rw [hid] at h
            exact ⟨h.1.symm, h.2.1.symm⟩
          · rw [h.2.1] at hl
            rw [hloc] at hl
            exact absurd hl (by simp)

theorem parkPriority_noLoc_id (pr : List ZoneType) :
    ∀ (lot : Lot) (v : Vehicle), v.location = none →
    (lot.parkPriority v pr).2.location = none →
    (lot.parkPriority v pr).1 = lot ∧ (lot.parkPriority v pr).2 = v := by
  induction pr with
  | nil =>
    intro lot v hv hloc
    rw [parkPriority_nil]
    exact ⟨rfl, rfl⟩
  | cons zt rest ih =>
    intro lot v hv hloc
    rcases hzz : lot.parkZonesOfType v zt (lot.zones zt) 0 with ⟨lot2, v2, b⟩
    cases b with
    | true =>
      rw [parkPriority_parked lot lot2 v v2 zt rest hzz] at hloc ⊢
      obtain ⟨h1, h2⟩ := parkZonesOfType_noLoc_id (lot.zones zt) 0 lot lot2 v v2 zt true hv hzz hloc
      exact ⟨h1, h2⟩
    | false =>
      obtain ⟨h1, h2⟩ := parkZonesOfType_false_id (lot.zones zt) 0 lot lot2 v v2 zt hzz
      rw [parkPriority_notParked lot lot2 v v2 zt rest hzz] at hloc ⊢
      rw [h1, h2] at hloc ⊢
      exact ih lot v hv hloc

theorem addVehicle_noLoc_id (lot : Lot) (t : VehicleType) (id : Nat)
    (h : (lot.addVehicle t id).2.location = none) :
    (lot.addVehicle t id).1 = lot := by
  rcases hr : lot.parkFirstAvailable (mkVehicle t id) with ⟨lot2, v2⟩
  cases hl : v2.location with
  | some l =>
    have h2 : v2.location = none := by
      rw [addVehicle_placed lot t id l (by rw [hr]; exact hl), hr] at h
      exact h
    rw [hl] at h2
    exact absurd h2 (by simp)
  | none =>
    rw [addVehicle_notPlaced lot t id (by rw [hr]; exact hl)]
    have hr2 : lot.parkPriority (mkVehicle t id) (mkVehicle t id).priority = (lot2, v2) := hr
    have hx : (lot.parkPriority (mkVehicle t id) (mkVehicle t id).priority).2.location = none := by
      rw [hr2]
      exact hl
    have hmain := parkPriority_noLoc_id (mkVehicle t id).priority lot (mkVehicle t id) rfl hx
    have hm1 : lot2 = lot := by
      have := hmain.1
      rw [hr2] at this
      exact this
    rw [hr]
    rw [hm1]

/-- Claim C4: for every lot state, when `add_vehicle` ends with the vehicle
unplaced (the `NoCapacity` outcome), every zone's free list and spot array
(the `zones` map), the parked counts and the stored vehicle handles are
exactly as before the call. -/
theorem claim_C4_rejection_no_side_effects (lot : Lot) (t : VehicleType) (id : Nat)
    (h : (lot.addVehicle t id).2.location = none) :
    (lot.addVehicle t id).1.zones = lot.zones ∧
    (lot.addVehicle t id).1.count = lot.count ∧
    (lot.addVehicle t id).1.vehicles = lot.vehicles := by
  rw [addVehicle_noLoc_id lot t id h]
  exact ⟨rfl, rfl, rfl⟩

/-- Witness for C4: adding a car to a lot with no zones is rejected and
changes nothing. -/
theorem claim_C4_rejection_no_side_effects_witness :
    ((mkLot []).addVehicle VehicleType.CAR 0).2.location = none ∧
    (((mkLot []).addVehicle VehicleType.CAR 0).1.zones = (mkLot []).zones ∧
      ((mkLot []).addVehicle VehicleType.CAR 0).1.count = (mkLot []).count ∧
      ((mkLot []).addVehicle VehicleType.CAR 0).1.vehicles = (mkLot []).vehicles) :=
  ⟨rfl, claim_C4_rejection_no_side_effects (mkLot []) VehicleType.CAR 0 rfl⟩

/-! ## Properties of the sorted insert and the vehicle dict -/

theorem insort_mem (l : List Nat) (x a : Nat) : a ∈ insort l x ↔ a = x ∨ a ∈ l := by
  induction l with
  | nil => simp [insort]
  | cons y rest ih =>
    rw [insort]
    by_cases h : x < y
    · simp [h]
    · simp only [h, if_false, List.mem_cons, ih]
      tauto

theorem insort_perm (l : List Nat) (x : Nat) : List.Perm (insort l x) (x :: l) := by
  induction l with
  | nil => rfl
  | cons y rest ih =>
    rw [insort]
    by_cases h : x < y
    · simp [h]
    · simp only [h, if_false]
      exact (ih.cons y).trans (List.Perm.swap x y rest)

theorem insort_sorted (l : List Nat) (x : Nat) (hs : List.Sorted (· < ·) l) (hx : x ∉ l) :
    List.Sorted (· < ·) (insort l x) := by
  induction l with
  | nil => simp [insort]
  | cons y rest ih =>
    rw [insort]
    rw [List.sorted_cons] at hs
    by_cases h : x < y
    · rw [if_pos h]
      rw [List.sorted_cons]
      refine ⟨?_, List.sorted_cons.mpr hs⟩
      intro b hb
      rcases List.mem_cons.mp hb with rfl | hb2
      · exact h
      · exact h.trans (hs.1 b hb2)
    · rw [if_neg h]
      rw [List.sorted_cons]
      have hxy : y < x := by
        rcases Nat.lt_trichotomy x y with h1 | h1 | h1
        · exact absurd h1 h
        · exact absurd (h1 ▸ List.mem_cons_self y rest) (h1 ▸ hx)
        · exact h1
      refine ⟨?_, ih hs.2 (fun hc => hx (List.mem_cons_of_mem y hc))⟩
      intro b hb
      rcases (insort_mem rest x b).mp hb with rfl | hb2
      · exact hxy
      · exact hs.1 b hb2

theorem lookupA_setA_self (l : List (Nat × Vehicle)) (k : Nat) (w : Vehicle) :
    lookupA (setA l k w) k = some w := by
  induction l with
  | nil => simp [setA, lookupA]
  | cons p rest ih =>
    rw [setA]
    by_cases h : p.1 = k
    · simp [h, lookupA]
    · simp only [h, if_false]
      rw [lookupA]
      simp [h, ih]

theorem lookupA_setA_ne (l : List (Nat × Vehicle)) (k k2 : Nat) (w : Vehicle) (h : k2 ≠ k) :
    lookupA (setA l k w) k2 = lookupA l k2 := by
  induction l with
  | nil =>
    rw [setA, lookupA, lookupA, if_neg (show ¬ k = k2 from fun hc => h hc.symm)]
    rfl
  | cons p rest ih =>
    rw [setA]
    by_cases hp : p.1 = k
    · rw [if_pos hp]
      obtain ⟨pk, pw⟩ := p
      rw [lookupA, lookupA, if_neg (show ¬ k = k2 from fun hc => h hc.symm)]
      simp only at hp
      rw [if_neg (show ¬ pk = k2 from fun hc => h (hc.symm.trans hp))]
    · rw [if_neg hp]
      obtain ⟨pk, pw⟩ := p
      rw [lookupA, lookupA]
      simp only at hp
      by_cases hk2 : pk = k2
      · rw [if_pos hk2, if_pos hk2]
      · rw [if_neg hk2, if_neg hk2]
        exact ih

theorem setA_keys (l : List (Nat × Vehicle)) (k k2 : Nat) (w : Vehicle) :
    k2 ∈ (setA l k w).map Prod.fst ↔ k2 = k ∨ k2 ∈ l.map Prod.fst := by
  induction l with
  | nil => simp [setA]
  | cons p rest ih =>
    rw [setA]
    by_cases hp : p.1 = k
    · rw [if_pos hp]
      simp [hp]
    · rw [if_neg hp]
      simp only [List.map_cons, List.mem_cons, ih]
      tauto

theorem setA_keys_nodup (l : List (Nat × Vehicle)) (k : Nat) (w : Vehicle)
    (h : (l.map Prod.fst).Nodup) : ((setA l k w).map Prod.fst).Nodup := by
  induction l with
  | nil => simp [setA]
  | cons p rest ih =>
    rw [List.map_cons, List.nodup_cons] at h
    rw [setA]
    by_cases hp : p.1 = k
    · rw [if_pos hp]
      rw [List.map_cons, List.nodup_cons]
      exact ⟨hp ▸ h.1, h.2⟩
    · rw [if_neg hp]
      rw [List.map_cons, List.nodup_cons]
      refine ⟨?_, ih h.2⟩
      intro hc
      rcases (setA_keys rest k p.1 w).mp hc with h1 | h1
      · exact hp h1
      · exact h.1 h1

theorem eraseA_keys_sublist (l : List (Nat × Vehicle)) (k : Nat) :
    List.Sublist ((eraseA l k).map Prod.fst) (l.map Prod.fst) := by
  induction l with
  | nil => simp [eraseA]
  | cons p rest ih =>
    rw [eraseA]
    by_cases hp : p.1 = k
    · rw [if_pos hp]
      exact (List.sublist_cons_self p.1 (rest.map Prod.fst))
    · rw [if_neg hp]
      rw [List.map_cons, List.map_cons]
      exact ih.cons₂ p.1

theorem lookupA_eraseA_ne (l : List (Nat × Vehicle)) (k k2 : Nat) (h : k2 ≠ k) :
    lookupA (eraseA l k) k2 = lookupA l k2 := by
  induction l with
  | nil => simp [eraseA]
  | cons p rest ih =>
    rw [eraseA]
    by_cases hp : p.1 = k
    · rw [if_pos hp, lookupA, if_neg (by rw [hp]; exact fun hc => h hc.symm)]
    · rw [if_neg hp, lookupA, lookupA]
      by_cases hk2 : p.1 = k2
      · simp [hk2]
      · simp [hk2, ih]

theorem lookupA_eraseA_self (l : List (Nat × Vehicle)) (k : Nat)
    (h : (l.map Prod.fst).Nodup) : lookupA (eraseA l k) k = none := by
  induction l with
  | nil => simp [eraseA, lookupA]
  | cons p rest ih =>
    rw [List.map_cons, List.nodup_cons] at h
    rw [eraseA]
    by_cases hp : p.1 = k
    · rw [if_pos hp]
      cases hl : lookupA rest k with
      | none => rfl
      | some w =>
        exfalso
        apply h.1
        rw [hp]
        clear ih hp h
        induction rest with
        | nil => exact absurd hl (by simp [lookupA])
        | cons q rest2 ih2 =>
          rw [lookupA] at hl
          by_cases hq : q.1 = k
          · exact List.mem_map.mpr ⟨q, List.mem_cons_self q rest2, hq⟩
          · rw [if_neg hq] at hl
            exact List.mem_cons_of_mem q.1 (ih2 hl)
    · rw [if_neg hp, lookupA, if_neg hp]
      exact ih h.2

theorem lookupA_mem_keys (l : List (Nat × Vehicle)) (k : Nat) (w : Vehicle)
    (h : lookupA l k = some w) : k ∈ l.map Prod.fst := by
  induction l with
  | nil => exact absurd h (by simp [lookupA])
  | cons p rest ih =>
    rw [lookupA] at h
    by_cases hp : p.1 = k
    · exact List.mem_map.mpr ⟨p, List.mem_cons_self p rest, hp⟩
    · rw [if_neg hp] at h
      exact List.mem_cons_of_mem p.1 (ih h)

theorem set_of_getElem (l : List Zone) (n : Nat) (a : Zone) (h : l[n]? = some a) :
    l.set n a = l := by
  induction l generalizing n with
  | nil => simp at h
  | cons x rest ih =>
    cases n with
    | zero =>
      simp only [List.getElem?_cons_zero, Option.some.injEq] at h
      rw [h]
      rfl
    | succ m =>
      simp only [List.getElem?_cons_succ] at h
      rw [List.set_cons_succ]
      rw [ih m h]

/-! ## The occupation loop: closed form and preserved facts -/

theorem occupyRun_spec (n : Nat) :
    ∀ (spots : List (Option Nat)) (free : List Nat) (p : Nat) (vid : Nat),
    p + n ≤ free.length → free.Nodup →
    (∀ i, i ∈ free ↔ spots[i]? = some none) →
    (occupyRun spots free p vid n).2.2 = (free.drop p).take n ∧
    (occupyRun spots free p vid n).2.1 = free.take p ++ free.drop (p + n) ∧
    (occupyRun spots free p vid n).1.length = spots.length ∧
    (∀ j, j ∉ (free.drop p).take n → (occupyRun spots free p vid n).1[j]? = spots[j]?) ∧
    (∀ i ∈ (free.drop p).take n, (occupyRun spots free p vid n).1[i]? = some (some vid)) := by
  induction n with
  | zero =>
    intro spots free p vid hpn hnd hmem
    refine ⟨rfl, ?_, rfl, fun j _ => rfl, fun i hi => absurd hi (by simp)⟩
    rw [occupyRun]
    simp [List.take_append_drop]
  | succ n ih =>
    intro spots free p vid hpn hnd hmem
    have hplt : p < free.length := by omega
    have hfp : free[p]? = some free[p] := List.getElem?_eq_some.mpr ⟨hplt, rfl⟩
    have hmemp : free[p] ∈ free := List.mem_iff_getElem?.mpr ⟨p, hfp⟩
    have hi0lt : free[p] < spots.length := by
      have := (hmem free[p]).mp hmemp
      rcases List.getElem?_eq_some.mp this with ⟨hlt, _⟩
      exact hlt
    have hdropc : free.drop p = free[p] :: free.drop (p + 1) :=
      List.drop_eq_getElem_cons hplt
    have hsplit : free = free.take p ++ free[p] :: free.drop (p + 1) := by
      conv_lhs => rw [← List.take_append_drop p free]
      rw [hdropc]
    have htklen : (free.take p).length = p := by
      rw [List.length_take]
      omega
    have hnd2 := hnd
    rw [hsplit] at hnd2
    have hi0take : free[p] ∉ free.take p := by
      intro hc
      rcases List.nodup_append.mp hnd2 with ⟨_, _, hdisj⟩
      exact hdisj hc (List.mem_cons_self _ _)
    have hi0drop : free[p] ∉ free.drop (p + 1) := by
      intro hc
      rcases List.nodup_append.mp hnd2 with ⟨_, hnd3, _⟩
      rw [List.nodup_cons] at hnd3
      exact hnd3.1 hc
    have hfree2 : List.Sublist (free.take p ++ free.drop (p + 1)) free := by
      conv_rhs => rw [hsplit]
      exact List.Sublist.append_left (List.sublist_cons_self _ _) _
    have hmemfree2 : ∀ i : Nat, i ∈ free.take p ++ free.drop (p + 1) ↔
        (i ≠ free[p] ∧ i ∈ free) := by
      intro i
      constructor
      · intro hin
        refine ⟨?_, hfree2.mem hin⟩
        rintro rfl
        rcases List.mem_append.mp hin with hc | hc
        · exact hi0take hc
        · exact hi0drop hc
      · intro ⟨hne, hin⟩
        rw [hsplit] at hin
        rcases List.mem_append.mp hin with hc | hc
        · exact List.mem_append.mpr (Or.inl hc)
        · rcases List.mem_cons.mp hc with rfl | hc2
          · exact absurd rfl hne
          · exact List.mem_append.mpr (Or.inr hc2)
    have hlen2 : (free.take p ++ free.drop (p + 1)).length = free.length - 1 := by
      rw [List.length_append, List.length_take, List.length_drop]
      omega
    have hmem2 : ∀ i, i ∈ free.take p ++ free.drop (p + 1) ↔
        (spots.set free[p] (some vid))[i]? = some none := by
      intro i
      by_cases hieq : i = free[p]
      · subst hieq
        rw [List.getElem?_set_self hi0lt]
        simp only [hmemfree2]
        simp
      · rw [List.getElem?_set_ne (fun hc => hieq hc.symm)]
        rw [hmemfree2 i]
        rw [hmem i]
        simp [hieq]
    have hih := ih (spots.set free[p] (some vid)) (free.take p ++ free.drop (p + 1)) p vid
      (by omega) (hnd.sublist hfree2) hmem2
    have htake2 : (free.take p ++ free.drop (p + 1)).take p = free.take p := by
      rw [List.take_append_eq_append_take, htklen]
      simp [List.take_take]
    have hdrop2 : ∀ m : Nat, (free.take p ++ free.drop (p + 1)).drop (p + m) =
        free.drop (p + 1 + m) := by
      intro m
      rw [List.drop_append_eq_append_drop, htklen]
      rw [List.drop_eq_nil_of_le (by omega : (free.take p).length ≤ p + m), List.nil_append]
      rw [List.drop_drop]
      congr 1
      omega
    have hdrop0 : (free.take p ++ free.drop (p + 1)).drop p = free.drop (p + 1) := by
      have := hdrop2 0
      simpa using this
    have hpop : (free.drop p).take (n + 1)
        = free[p] :: (free.drop (p + 1)).take n := by
      rw [hdropc]
      rfl
    have hrunfold : occupyRun spots free p vid (n + 1) =
        ((occupyRun (spots.set free[p] (some vid)) (free.take p ++ free.drop (p + 1)) p vid n).1,
         (occupyRun (spots.set free[p] (some vid)) (free.take p ++ free.drop (p + 1)) p vid n).2.1,
         free[p] :: (occupyRun (spots.set free[p] (some vid))
           (free.take p ++ free.drop (p + 1)) p vid n).2.2) := by
      rw [occupyRun]
      rw [hfp]
    rw [hrunfold]
    obtain ⟨ih1, ih2, ih3, ih4, ih5⟩ := hih
    refine ⟨?_, ?_, ?_, ?_, ?_⟩
    · rw [hpop]
      simp only [ih1, hdrop0]
    · simp only [ih2, htake2, hdrop2 n]
      congr 2
      omega
    · rw [ih3]
      exact List.length_set _ _ _
    · intro j hj
      rw [hpop] at hj
      have hjne : j ≠ free[p] := fun hc => hj (hc ▸ List.mem_cons_self _ _)
      have hjnp : j ∉ ((free.take p ++ free.drop (p + 1)).drop p).take n := by
        rw [hdrop0]
        intro hc
        exact hj (List.mem_cons_of_mem _ hc)
      rw [ih4 j hjnp]
      exact List.getElem?_set_ne (fun hc => hjne hc.symm)
    · intro i hi
      rw [hpop] at hi
      rcases List.mem_cons.mp hi with rfl | hi2
      · have hnp : free[p] ∉ ((free.take p ++ free.drop (p + 1)).drop p).take n := by
          rw [hdrop0]
          intro hc
          exact hi0drop (List.mem_of_mem_take hc)
        rw [ih4 free[p] hnp]
        exact List.getElem?_set_self hi0lt
      · apply ih5
        rw [hdrop0]
        exact hi2

theorem findAdjacentAux_bound (free : List Nat) (n : Nat) (first : Bool) :
    ∀ (index : Nat), ∀ p ∈ findAdjacentAux free n first index, p + n ≤ free.length := by
  have H : ∀ (fuel index : Nat), free.length + 1 - index ≤ fuel →
      ∀ p ∈ findAdjacentAux free n first index, p + n ≤ free.length := by
    intro fuel
    induction fuel with
    | zero =>
      intro index hle p hp
      rw [findAdjacentAux_stop free n first index (by omega)] at hp
      exact absurd hp (by simp)
    | succ fuel ih =>
      intro index hle p hp
      by_cases hc : index + n ≤ free.length
      · by_cases hacc : ((free.getD (index + n - 1) 0 : Int) - (free.getD index 0 : Int)) + 1
            = (n : Int)
        · rw [findAdjacentAux_accept free n first index hc hacc] at hp
          cases first with
          | true =>
            simp only [if_true] at hp
            rcases List.mem_singleton.mp hp with rfl
            exact hc
          | false =>
            simp only [Bool.false_eq_true, if_false] at hp
            rcases List.mem_cons.mp hp with rfl | hp2
            · exact hc
            · exact ih (index + n + 1) (by omega) p hp2
        · rw [findAdjacentAux_reject free n first index hc hacc] at hp
          exact ih (index + 1) (by omega) p hp
      · rw [findAdjacentAux_stop free n first index (by omega)] at hp
        exact absurd hp (by simp)
  exact fun index => H (free.length + 1 - index) index (le_refl _)

/-! ## What a successful placement does to the zone -/

theorem parkSingle_success (lot : Lot) (z : Zone) (zt : ZoneType) (zi : Nat) (v : Vehicle)
    (hzi : ZoneInv z) (hne : z.free ≠ []) :
    ∃ z2, lot.parkSingle z zt zi v =
      ((lot.setZone zt zi z2).bumpCount v.type_ 1,
        { v with location := some (z.type_, zi, [z.free.headI]) }) ∧
      ZoneMod z z2 [z.free.headI] v.id_ := by
  obtain ⟨hs, hm⟩ := hzi
  cases hf : z.free with
  | nil => exact absurd hf hne
  | cons a l =>
    have hmema : a ∈ z.free := by rw [hf]; exact List.mem_cons_self a l
    have hspota : z.spots[a]? = some none := (hm a).mp hmema
    have halt : a < z.spots.length := (List.getElem?_eq_some.mp hspota).1
    have hnd : z.free.Nodup := hs.nodup
    have hanotl : a ∉ l := by
      rw [hf] at hnd
      exact (List.nodup_cons.mp hnd).1
    refine ⟨{ z with spots := z.spots.set a (some v.id_), free := l }, ?_, ?_⟩
    · rw [Lot.parkSingle, hf]
      rfl
    · refine ⟨rfl, rfl, rfl, List.length_set _ _ _, by simp, by simp, ?_, ?_, ?_, ?_, ?_⟩
      · intro i hi
        rcases List.mem_singleton.mp hi with rfl
        exact hspota
      · intro i hi
        rcases List.mem_singleton.mp hi with rfl
        exact List.getElem?_set_self halt
      · intro j hj
        apply List.getElem?_set_ne
        intro hc
        exact hj (by rw [← hc]; exact List.mem_singleton_self a)
      · rw [hf]
        exact List.Perm.refl _
      · constructor
        · rw [hf] at hs
          exact (List.sorted_cons.mp hs).2
        · intro i
          by_cases hia : i = a
          · subst hia
            rw [List.getElem?_set_self halt]
            simp only
            constructor
            · intro hc
              exact absurd hc hanotl
            · intro hc
              exact absurd hc (by simp)
          · rw [List.getElem?_set_ne (fun hc => hia hc.symm)]
            simp only
            rw [← hm i]
            rw [hf]
            simp [hia]

theorem parkAdjacent_success (lot : Lot) (z : Zone) (zt : ZoneType) (zi : Nat) (v : Vehicle)
    (n : Nat) (hzi : ZoneInv z) (hn : (⌈v.size / z.size⌉).toNat = n) (hn1 : 1 ≤ n)
    (p : Nat) (prest : List Nat)
    (hf : findAdjacentFreeSpots z.free n true = p :: prest) :
    ∃ z2 idxs, lot.parkAdjacent z zt zi v =
      ((lot.setZone zt zi z2).bumpCount v.type_ (n : Int),
        { v with location := some (z.type_, zi, idxs) }) ∧
      ZoneMod z z2 idxs v.id_ := by
  obtain ⟨hs, hm⟩ := hzi
  have hpmem : p ∈ findAdjacentAux z.free n true 0 := by
    rw [show findAdjacentAux z.free n true 0 = findAdjacentFreeSpots z.free n true from rfl, hf]
    exact List.mem_cons_self p prest
  have hbound : p + n ≤ z.free.length := findAdjacentAux_bound z.free n true 0 p hpmem
  have hnd : z.free.Nodup := hs.nodup
  obtain ⟨sp1, sp2, sp3, sp4, sp5⟩ := occupyRun_spec n z.spots z.free p v.id_ hbound hnd hm
  have hpoplen : ((z.free.drop p).take n).length = n := by
    rw [List.length_take, List.length_drop]
    omega
  have hpopne : (z.free.drop p).take n ≠ [] := by
    intro hc
    rw [hc] at hpoplen
    simp at hpoplen
    omega
  have hdropn : (z.free.drop p).drop n = z.free.drop (p + n) := by
    first
    | rw [List.drop_drop, Nat.add_comm]
    | rw [List.drop_drop]
  have hdropsplit : z.free.drop p = (z.free.drop p).take n ++ z.free.drop (p + n) := by
    rw [← hdropn, List.take_append_drop]
  have hdecomp : z.free = z.free.take p ++ ((z.free.drop p).take n ++ z.free.drop (p + n)) := by
    conv_lhs => rw [← List.take_append_drop p z.free, hdropsplit]
  have hnd2 : (z.free.take p ++ ((z.free.drop p).take n ++ z.free.drop (p + n))).Nodup := by
    rw [← hdecomp]
    exact hnd
  obtain ⟨ndt, ndmid, disj1⟩ := List.nodup_append.mp hnd2
  obtain ⟨ndpop, nddrop, disj2⟩ := List.nodup_append.mp ndmid
  have hsubpop : List.Sublist ((z.free.drop p).take n) z.free :=
    (List.take_sublist n (z.free.drop p)).trans (List.drop_sublist p z.free)
  have hsubnew : List.Sublist (z.free.take p ++ z.free.drop (p + n)) z.free := by
    conv_rhs => rw [hdecomp]
    apply List.Sublist.append_left
    exact List.sublist_append_right _ _
  have hmemnew : ∀ i : Nat, i ∈ z.free.take p ++ z.free.drop (p + n) ↔
      (i ∈ z.free ∧ i ∉ (z.free.drop p).take n) := by
    intro i
    constructor
    · intro hin
      refine ⟨hsubnew.mem hin, ?_⟩
      intro hc
      rcases List.mem_append.mp hin with h1 | h1
      · exact disj1 h1 (List.mem_append.mpr (Or.inl hc))
      · exact disj2 hc h1
    · intro ⟨hin, hnotp⟩
      rw [hdecomp] at hin
      rcases List.mem_append.mp hin with h1 | h1
      · exact List.mem_append.mpr (Or.inl h1)
      · rcases List.mem_append.mp h1 with h2 | h2
        · exact absurd h2 hnotp
        · exact List.mem_append.mpr (Or.inr h2)
  have hperm : List.Perm z.free
      ((z.free.drop p).take n ++ (z.free.take p ++ z.free.drop (p + n))) := by
    have h2 : List.Perm (z.free.take p ++ (z.free.drop p).take n)
        ((z.free.drop p).take n ++ z.free.take p) := List.perm_append_comm
    have h3 := h2.append_right (z.free.drop (p + n))
    rw [List.append_assoc, List.append_assoc] at h3
    rw [← hdecomp] at h3
    exact h3
  refine ⟨⟨z.type_, z.size, z.adjacent, (occupyRun z.spots z.free p v.id_ n).1,
    (occupyRun z.spots z.free p v.id_ n).2.1⟩, (z.free.drop p).take n, ?_, ?_⟩
  · rw [Lot.parkAdjacent, hn, hf]
    simp only [sp1]
  · refine ⟨rfl, rfl, rfl, sp3, ndpop, hpopne, ?_, sp5, sp4, ?_, ?_, ?_⟩
    · intro i hi
      exact (hm i).mp (hsubpop.mem hi)
    · show List.Perm z.free ((z.free.drop p).take n ++ (occupyRun z.spots z.free p v.id_ n).2.1)
      rw [sp2]
      exact hperm
    · show List.Sorted (· < ·) ((occupyRun z.spots z.free p v.id_ n).2.1)
      rw [sp2]
      exact hs.sublist hsubnew
    · intro i
      show i ∈ (occupyRun z.spots z.free p v.id_ n).2.1 ↔
        (occupyRun z.spots z.free p v.id_ n).1[i]? = some none
      rw [sp2]
      by_cases hip : i ∈ (z.free.drop p).take n
      · rw [sp5 i hip]
        constructor
        · intro hc
          exact absurd hip ((hmemnew i).mp hc).2
        · intro hc
          exact absurd hc (by simp)
      · rw [sp4 i hip]
        rw [hmemnew i]
        rw [hm i]
        simp [hip]

theorem parkZonesOfType_success (zs : List Zone) :
    ∀ (zi : Nat) (lot lot2 : Lot) (v v2 : Vehicle) (zt : ZoneType) (b : Bool),
    v.location = none → LotZonesOk lot → zs = (lot.zones zt).drop zi →
    lot.parkZonesOfType v zt zs zi = (lot2, v2, b) →
    v2.location ≠ none →
    v2.id_ = v.id_ ∧ v2.type_ = v.type_ ∧ ParkSuccess lot lot2 v2 := by
  induction zs with
  | nil =>
    intro zi lot lot2 v v2 zt b hv hok hdrop h hloc
    rw [parkZonesOfType_nil] at h
    simp only [Prod.mk.injEq] at h
    rw [← h.2.1] at hloc
    exact absurd hv hloc
  | cons z rest ih =>
    intro zi lot lot2 v v2 zt b hv hok hdrop h hloc
    have hzel : (lot.zones zt)[zi]? = some z := by
      have h0 : ((lot.zones zt).drop zi)[0]? = some z := by
        rw [← hdrop]
        simp
      rw [List.getElem?_drop] at h0
      simpa using h0
    have hrest : rest = (lot.zones zt).drop (zi + 1) := by
      rw [← List.tail_drop, ← hdrop]
      rfl
    have hzmem : z ∈ lot.zones zt := List.mem_iff_getElem?.mpr ⟨zi, hzel⟩
    obtain ⟨htype, hsize, hzinv⟩ := hok zt z hzmem
    by_cases hfree : z.free.length = 0
    · rw [parkZonesOfType_skip lot v zt z rest zi hfree] at h
      exact ih (zi + 1) lot lot2 v v2 zt b hv hok hrest h hloc
    · by_cases hfit : v.size ≤ z.size
      · rw [parkZonesOfType_single lot v zt z rest zi hfree hfit] at h
        obtain ⟨z2, heq, hmod⟩ := parkSingle_success lot z zt zi v hzinv
          (fun hc => hfree (by rw [hc]; rfl))
        rw [heq] at h
        simp only [Prod.mk.injEq] at h
        obtain ⟨h1, h2, _⟩ := h
        subst h1
        subst h2
        refine ⟨rfl, rfl, zt, zi, [z.free.headI], z, z2, ?_, hzel, ?_, ?_, rfl, hmod⟩
        · rw [htype]
        · show (if zt = zt then (lot.zones zt).set zi z2 else lot.zones zt)
            = (lot.zones zt).set zi z2
          rw [if_pos rfl]
        · intro t ht
          show (if t = zt then (lot.zones zt).set zi z2 else lot.zones t) = lot.zones t
          rw [if_neg ht]
      · cases hadj : z.adjacent with
        | false =>
          rw [parkZonesOfType_noFit lot v zt z rest zi hfree hfit hadj] at h
          exact ih (zi + 1) lot lot2 v v2 zt b hv hok hrest h hloc
        | true =>
          rw [parkZonesOfType_adjacent lot v zt z rest zi hfree hfit hadj] at h
          have hbig : z.size < v.size := not_le.mp hfit
          have hq : (0 : ℚ) < v.size / z.size := div_pos (lt_trans hsize hbig) hsize
          have hge : (1 : Int) ≤ ⌈v.size / z.size⌉ := Int.one_le_ceil_iff.mpr hq
          have hn1 : 1 ≤ (⌈v.size / z.size⌉).toNat := by omega
          cases hfind : findAdjacentFreeSpots z.free ((⌈v.size / z.size⌉).toNat) true with
          | nil =>
            have hid : lot.parkAdjacent z zt zi v = (lot, v) := by
              rw [Lot.parkAdjacent, hfind]
            rw [hid] at h
            simp only [Prod.mk.injEq] at h
            rw [← h.2.1] at hloc
            exact absurd hv hloc
          | cons p prest =>
            obtain ⟨z2, idxs, heq, hmod⟩ := parkAdjacent_success lot z zt zi v
              ((⌈v.size / z.size⌉).toNat) hzinv rfl hn1 p prest hfind
            rw [heq] at h
            simp only [Prod.mk.injEq] at h
            obtain ⟨h1, h2, _⟩ := h
            subst h1
            subst h2
            refine ⟨rfl, rfl, zt, zi, idxs, z, z2, ?_, hzel, ?_, ?_, rfl, hmod⟩
            · rw [htype]
            · show (if zt = zt then (lot.zones zt).set zi z2 else lot.zones zt)
                = (lot.zones zt).set zi z2
              rw [if_pos rfl]
            · intro t ht
              show (if t = zt then (lot.zones zt).set zi z2 else lot.zones t) = lot.zones t
              rw [if_neg ht]

theorem parkPriority_success (pr : List ZoneType) :
    ∀ (lot : Lot) (v : Vehicle), v.location = none → LotZonesOk lot →
    (lot.parkPriority v pr).2.location ≠ none →
    (lot.parkPriority v pr).2.id_ = v.id_ ∧ (lot.parkPriority v pr).2.type_ = v.type_ ∧
    ParkSuccess lot (lot.parkPriority v pr).1 (lot.parkPriority v pr).2 := by
  induction pr with
  | nil =>
    intro lot v hv hok hloc
    rw [parkPriority_nil] at hloc
    exact absurd hv hloc
  | cons zt rest ih =>
    intro lot v hv hok hloc
    rcases hzz : lot.parkZonesOfType v zt (lot.zones zt) 0 with ⟨lot2, v2, b⟩
    cases b with
    | true =>
      have hpr : lot.parkPriority v (zt :: rest) = (lot2, v2) :=
        parkPriority_parked _ _ _ _ _ _ hzz
      rw [hpr] at hloc ⊢
      exact parkZonesOfType_success (lot.zones zt) 0 lot lot2 v v2 zt true hv hok
        (List.drop_zero _).symm hzz hloc
    | false =>
      obtain ⟨h1, h2⟩ := parkZonesOfType_false_id (lot.zones zt) 0 lot lot2 v v2 zt hzz
      have hpr : lot.parkPriority v (zt :: rest) = lot2.parkPriority v2 rest :=
        parkPriority_notParked _ _ _ _ _ _ hzz
      rw [hpr] at hloc ⊢
      rw [h1, h2] at hloc ⊢
      exact ih lot v hv hok hloc

theorem addVehicle_success (lot : Lot) (t : VehicleType) (id : Nat)
    (hok : LotZonesOk lot) (hloc : (lot.addVehicle t id).2.location ≠ none) :
    (lot.addVehicle t id).2.id_ = id ∧ (lot.addVehicle t id).2.type_ = t ∧
    ∃ lotP, ParkSuccess lot lotP (lot.addVehicle t id).2 ∧
      (lot.addVehicle t id).1 =
        { lotP with vehicles :=
            (setA lotP.vehicles (lot.addVehicle t id).2.id_ (lot.addVehicle t id).2) } := by
  rcases hr : lot.parkFirstAvailable (mkVehicle t id) with ⟨lot2, v2⟩
  have hr2 : lot.parkPriority (mkVehicle t id) (mkVehicle t id).priority = (lot2, v2) := hr
  cases hl : v2.location with
  | none =>
    have hnp := addVehicle_notPlaced lot t id (by rw [hr]; exact hl)
    rw [hnp, hr] at hloc
    exact absurd hl hloc
  | some l =>
    have hp := addVehicle_placed lot t id l (by rw [hr]; exact hl)
    have hmain := parkPriority_success (mkVehicle t id).priority lot (mkVehicle t id) rfl hok
      (by rw [hr2]; show v2.location ≠ none; rw [hl]; exact fun hc => Option.noConfusion hc)
    rw [hr2] at hmain
    rw [hp, hr]
    exact ⟨hmain.1.trans rfl, hmain.2.1.trans rfl, lot2, hmain.2.2, rfl⟩

/-! ## What release does to the zone -/

theorem releaseFold_spec (idxs : List Nat) :
    ∀ (z : Zone) (id : Nat), idxs.Nodup → ZoneInv z →
    (∀ i ∈ idxs, z.spots[i]? = some (some id)) →
    (idxs.foldl releaseSpot z).type_ = z.type_ ∧
    (idxs.foldl releaseSpot z).size = z.size ∧
    (idxs.foldl releaseSpot z).adjacent = z.adjacent ∧
    (idxs.foldl releaseSpot z).spots.length = z.spots.length ∧
    ZoneInv (idxs.foldl releaseSpot z) ∧
    List.Perm (idxs.foldl releaseSpot z).free (idxs ++ z.free) ∧
    (∀ i ∈ idxs, (idxs.foldl releaseSpot z).spots[i]? = some none) ∧
    (∀ j, j ∉ idxs → (idxs.foldl releaseSpot z).spots[j]? = z.spots[j]?) := by
  induction idxs with
  | nil =>
    intro z id hnd hzi hocc
    exact ⟨rfl, rfl, rfl, rfl, hzi, List.Perm.refl _, fun i hi => absurd hi (by simp),
      fun j _ => rfl⟩
  | cons a rest ih =>
    intro z id hnd hzi hocc
    obtain ⟨hs, hm⟩ := hzi
    rw [List.nodup_cons] at hnd
    have hocca : z.spots[a]? = some (some id) := hocc a (List.mem_cons_self a rest)
    have halt : a < z.spots.length := (List.getElem?_eq_some.mp hocca).1
    have hanf : a ∉ z.free := by
      intro hc
      rw [hm a] at hc
      rw [hocca] at hc
      exact Option.noConfusion (Option.some.inj hc)
    have hz1inv : ZoneInv (releaseSpot z a) := by
      constructor
      · exact insort_sorted z.free a hs hanf
      · intro i
        show i ∈ insort z.free a ↔ (z.spots.set a none)[i]? = some none
        rw [insort_mem]
        by_cases hia : i = a
        · subst hia
          rw [List.getElem?_set_self halt]
          simp
        · rw [List.getElem?_set_ne (fun hc => hia hc.symm)]
          rw [← hm i]
          simp [hia]
    have hocc1 : ∀ i ∈ rest, (releaseSpot z a).spots[i]? = some (some id) := by
      intro i hi
      show (z.spots.set a none)[i]? = some (some id)
      rw [List.getElem?_set_ne (fun hc => hnd.1 (by rw [hc]; exact hi))]
      exact hocc i (List.mem_cons_of_mem a hi)
    have hfold : (a :: rest).foldl releaseSpot z = rest.foldl releaseSpot (releaseSpot z a) :=
      rfl
    obtain ⟨ih1, ih2, ih3, ih4, ih5, ih6, ih7, ih8⟩ := ih (releaseSpot z a) id hnd.2 hz1inv hocc1
    rw [hfold]
    refine ⟨ih1, ih2, ih3, by rw [ih4]; exact List.length_set _ _ _, ih5, ?_, ?_, ?_⟩
    · refine ih6.trans ?_
      show List.Perm (rest ++ insort z.free a) ((a :: rest) ++ z.free)
      refine List.Perm.trans (List.Perm.append_left rest (insort_perm z.free a)) ?_
      exact List.perm_middle
    · intro i hi
      rcases List.mem_cons.mp hi with rfl | hi2
      · rw [ih8 i hnd.1]
        show (z.spots.set i none)[i]? = some none
        rw [List.getElem?_set_self halt]
      · exact ih7 i hi2
    · intro j hj
      have hja : j ≠ a := fun hc => hj (hc ▸ List.mem_cons_self a rest)
      have hjr : j ∉ rest := fun hc => hj (List.mem_cons_of_mem a hc)
      rw [ih8 j hjr]
      show (z.spots.set a none)[j]? = z.spots[j]?
      exact List.getElem?_set_ne (fun hc => hja hc.symm)

/-! ## Preservation of the lot invariant -/

theorem lotInv_addVehicle (lot : Lot) (t : VehicleType) (id : Nat) (h : LotInv lot) :
    LotInv (lot.addVehicle t id).1 := by
  obtain ⟨hzones, hnodup, hhandles⟩ := h
  by_cases hloc : (lot.addVehicle t id).2.location = none
  · rw [addVehicle_noLoc_id lot t id hloc]
    exact ⟨hzones, hnodup, hhandles⟩
  · obtain ⟨hid, htype, lotP, hps, heq⟩ := addVehicle_success lot t id hzones hloc
    obtain ⟨zt, zi, idxs, z, z2, hvloc, hzel, hzset, hzother, hveh, hmod⟩ := hps
    obtain ⟨m1, m2, m3, m4, m5, m6, m7, m8, m9, m10, m11⟩ := hmod
    have hzilt : zi < (lot.zones zt).length := (List.getElem?_eq_some.mp hzel).1
    rw [heq]
    refine ⟨?_, ?_, ?_⟩
    · intro t2 z2m hz2m
      have hz2m2 : z2m ∈ lotP.zones t2 := hz2m
      by_cases ht2 : t2 = zt
      · subst ht2
        rw [hzset] at hz2m2
        rcases List.mem_or_eq_of_mem_set hz2m2 with h1 | rfl
        · exact hzones t2 z2m h1
        · obtain ⟨htz, hsz, _⟩ := hzones t2 z (List.mem_iff_getElem?.mpr ⟨zi, hzel⟩)
          exact ⟨m1.trans htz, m2 ▸ hsz, m11⟩
      · rw [hzother t2 ht2] at hz2m2
        exact hzones t2 z2m hz2m2
    · show ((setA lotP.vehicles (lot.addVehicle t id).2.id_ (lot.addVehicle t id).2).map
        Prod.fst).Nodup
      rw [hveh]
      exact setA_keys_nodup _ _ _ hnodup
    · intro id2 v2 hlk
      have hlk2 : lookupA (setA lotP.vehicles (lot.addVehicle t id).2.id_
          (lot.addVehicle t id).2) id2 = some v2 := hlk
      by_cases hid2 : id2 = (lot.addVehicle t id).2.id_
      · subst hid2
        rw [lookupA_setA_self] at hlk2
        obtain rfl := Option.some.inj hlk2.symm
        refine ⟨rfl, zt, zi, idxs, z2, hvloc, ?_, m5, m8⟩
        show (lotP.zones zt)[zi]? = some z2
        rw [hzset]
        exact List.getElem?_set_self hzilt
      · rw [lookupA_setA_ne lotP.vehicles _ id2 _ hid2] at hlk2
        rw [hveh] at hlk2
        obtain ⟨hvid2, zt0, zi0, idxs0, z0, hloc0, hzel0, hnd0, hocc0⟩ := hhandles id2 v2 hlk2
        have hidne : id2 ≠ id := by
          rw [← hid]
          exact hid2
        by_cases hzz : zt0 = zt ∧ zi0 = zi
        · obtain ⟨rfl, rfl⟩ := hzz
          have hz0z : z0 = z := by
            rw [hzel0] at hzel
            exact Option.some.inj hzel
          subst hz0z
          refine ⟨hvid2, zt0, zi0, idxs0, z2, hloc0, ?_, hnd0, ?_⟩
          · show (lotP.zones zt0)[zi0]? = some z2
            rw [hzset]
            exact List.getElem?_set_self hzilt
          · intro i hi
            have hoc : z0.spots[i]? = some (some id2) := hocc0 i hi
            have hinot : i ∉ idxs := by
              intro hc
              rw [m7 i hc] at hoc
              exact Option.noConfusion (Option.some.inj hoc)
            rw [m9 i hinot]
            exact hoc
        · have hzel2 : (lotP.zones zt0)[zi0]? = some z0 := by
            by_cases ht0 : zt0 = zt
            · subst ht0
              have hzine : zi0 ≠ zi := by
                intro hc
                exact hzz ⟨rfl, hc⟩
              rw [hzset]
              rw [List.getElem?_set_ne (fun hc => hzine hc.symm)]
              exact hzel0
            · rw [hzother zt0 ht0]
              exact hzel0
          exact ⟨hvid2, zt0, zi0, idxs0, z0, hloc0, hzel2, hnd0, hocc0⟩

theorem lotInv_removeVehicle (lot : Lot) (id : Nat) (v : Vehicle) (h : LotInv lot)
    (hlk : lookupA lot.vehicles id = some v) : LotInv (lot.removeVehicle v) := by
  obtain ⟨hzones, hnodup, hhandles⟩ := h
  obtain ⟨hvid, zt, zi, idxs, z, hloc, hzel, hnd, hocc⟩ := hhandles id v hlk
  have hlk2 : lookupA lot.vehicles v.id_ = some v := by
    rw [hvid]
    exact hlk
  have hunfold : lot.removeVehicle v =
      { (lot.setZone zt zi (idxs.foldl releaseSpot z)).bumpCount v.type_ (-1) with
        vehicles := eraseA lot.vehicles v.id_ } := by
    rw [Lot.removeVehicle, hlk2, hloc]
    simp only [hzel]
  obtain ⟨hztype, hzsize, hzinv⟩ := hzones zt z (List.mem_iff_getElem?.mpr ⟨zi, hzel⟩)
  obtain ⟨r1, r2, r3, r4, r5, r6, r7, r8⟩ := releaseFold_spec idxs z id hnd hzinv hocc
  have hzilt : zi < (lot.zones zt).length := (List.getElem?_eq_some.mp hzel).1
  rw [hunfold]
  refine ⟨?_, ?_, ?_⟩
  · intro t2 z2m hz2m
    by_cases ht2 : t2 = zt
    · subst ht2
      have hz2m2 : z2m ∈ (lot.zones t2).set zi (idxs.foldl releaseSpot z) := by
        have : z2m ∈ (if t2 = t2 then (lot.zones t2).set zi (idxs.foldl releaseSpot z)
            else lot.zones t2) := hz2m
        rw [if_pos rfl] at this
        exact this
      rcases List.mem_or_eq_of_mem_set hz2m2 with h1 | rfl
      · exact hzones t2 z2m h1
      · exact ⟨r1.trans hztype, r2 ▸ hzsize, r5⟩
    · have hz2m2 : z2m ∈ lot.zones t2 := by
        have : z2m ∈ (if t2 = zt then (lot.zones zt).set zi (idxs.foldl releaseSpot z)
            else lot.zones t2) := hz2m
        rw [if_neg ht2] at this
        exact this
      exact hzones t2 z2m hz2m2
  · show ((eraseA lot.vehicles v.id_).map Prod.fst).Nodup
    exact hnodup.sublist (eraseA_keys_sublist _ _)
  · intro id2 v2 hlk3
    have hlk4 : lookupA (eraseA lot.vehicles v.id_) id2 = some v2 := hlk3
    by_cases hid2 : id2 = v.id_
    · subst hid2
      rw [lookupA_eraseA_self _ _ hnodup] at hlk4
      exact Option.noConfusion hlk4
    · rw [lookupA_eraseA_ne lot.vehicles v.id_ id2 hid2] at hlk4
      obtain ⟨hvid2, zt0, zi0, idxs0, z0, hloc0, hzel0, hnd0, hocc0⟩ := hhandles id2 v2 hlk4
      have hidne : id2 ≠ id := by
        rw [← hvid]
        exact hid2
      by_cases hzz : zt0 = zt ∧ zi0 = zi
      · obtain ⟨rfl, rfl⟩ := hzz
        have hz0z : z0 = z := by
          rw [hzel0] at hzel
          exact Option.some.inj hzel
        subst hz0z
        refine ⟨hvid2, zt0, zi0, idxs0, idxs.foldl releaseSpot z0, hloc0, ?_, hnd0, ?_⟩
        · show (if zt0 = zt0 then (lot.zones zt0).set zi0 (idxs.foldl releaseSpot z0)
            else lot.zones zt0)[zi0]? = some (idxs.foldl releaseSpot z0)
          rw [if_pos rfl]
          exact List.getElem?_set_self hzilt
        · intro i hi
          have hoc : z0.spots[i]? = some (some id2) := hocc0 i hi
          have hinot : i ∉ idxs := by
            intro hc
            rw [hocc i hc] at hoc
            exact hidne (Option.some.inj (Option.some.inj hoc)).symm
          rw [r8 i hinot]
          exact hoc
      · have hzel2 : (if zt0 = zt then (lot.zones zt).set zi (idxs.foldl releaseSpot z)
            else lot.zones zt0)[zi0]? = some z0 := by
          by_cases ht0 : zt0 = zt
          · subst ht0
            have hzine : zi0 ≠ zi := by
              intro hc
              exact hzz ⟨rfl, hc⟩
            rw [if_pos rfl]
            rw [List.getElem?_set_ne (fun hc => hzine hc.symm)]
            exact hzel0
          · rw [if_neg ht0]
            exact hzel0
        exact ⟨hvid2, zt0, zi0, idxs0, z0, hloc0, hzel2, hnd0, hocc0⟩

/-! ## Reachable lot states -/

theorem mkZone_inv (t : ZoneType) (s : ℚ) (n : Nat) (a : Bool) (hs : 0 < s) :
    0 < (mkZone t s n a).size ∧ ZoneInv (mkZone t s n a) := by
  refine ⟨hs, List.sorted_lt_range n, ?_⟩
  intro i
  show i ∈ List.range n ↔ (List.replicate n (none : Option Nat))[i]? = some none
  rw [List.mem_range, List.getElem?_replicate]
  by_cases hi : i < n
  · simp [hi]
  · simp [hi]

theorem mkLot_inv (zs : List Zone) (hz : ∀ z ∈ zs, 0 < z.size ∧ ZoneInv z) :
    LotInv (mkLot zs) := by
  refine ⟨?_, by simp [mkLot], ?_⟩
  · intro t z hzm
    have : z ∈ zs.filter (fun z => decide (z.type_ = t)) := hzm
    rw [List.mem_filter] at this
    obtain ⟨hmem, hdec⟩ := this
    refine ⟨of_decide_eq_true hdec, (hz z hmem).1, (hz z hmem).2⟩
  · intro id v hlk
    exact absurd hlk (by simp [mkLot, lookupA])

theorem reachable_inv (lot : Lot) (h : Reachable lot) : LotInv lot := by
  induction h with
  | init specs hpos =>
    apply mkLot_inv
    intro z hz
    rw [List.mem_map] at hz
    obtain ⟨s, hs, rfl⟩ := hz
    exact mkZone_inv s.1 s.2.1 s.2.2.1 s.2.2.2 (hpos s hs)
  | add lot t id _ ih => exact lotInv_addVehicle lot t id ih
  | remove lot id v _ hlk ih => exact lotInv_removeVehicle lot id v ih hlk

/-! ## Conservation counting -/

theorem filter_range_spots (spots : List (Option Nat)) :
    ((List.range spots.length).filter
      (fun i => decide (spots[i]? = some none))).length =
    (spots.filter (fun o => o.isNone)).length := by
  induction spots with
  | nil => rfl
  | cons o rest ih =>
    have hcomp : ((fun i => decide ((o :: rest)[i]? = some none)) ∘ Nat.succ)
        = fun i => decide (rest[i]? = some none) := by
      funext i
      simp [Function.comp]
    rw [List.length_cons, List.range_succ_eq_map, List.filter_cons, List.filter_map, hcomp]
    cases o with
    | none =>
      simp only [List.getElem?_cons_zero, Option.some.injEq, decide_eq_true_eq, if_pos trivial]
      rw [List.filter_cons]
      simp only [Option.isNone_none, if_pos trivial]
      rw [List.length_cons, List.length_cons, List.length_map, ih]
    | some w =>
      rw [List.filter_cons]
      simp only [List.getElem?_cons_zero, Option.some.injEq, decide_eq_true_eq,
        Option.isNone_some]
      simp only [reduceCtorEq, decide_False, Bool.false_eq_true, if_false]
      rw [List.length_map, ih]

theorem filter_split_length (spots : List (Option Nat)) :
    (spots.filter (fun o => o.isNone)).length + (spots.filter (fun o => o.isSome)).length
      = spots.length := by
  induction spots with
  | nil => rfl
  | cons o rest ih =>
    cases o with
    | none =>
      rw [List.filter_cons, List.filter_cons]
      simp only [Option.isNone_none, Option.isSome_none, if_pos trivial, Bool.false_eq_true,
        if_false]
      simp only [List.length_cons]
      omega
    | some w =>
      rw [List.filter_cons, List.filter_cons]
      simp only [Option.isNone_some, Option.isSome_some, if_pos trivial, Bool.false_eq_true,
        if_false]
      simp only [List.length_cons]
      omega

theorem zone_conservation (z : Zone) (hzi : ZoneInv z) :
    z.free.length + (z.spots.filter (fun o => o.isSome)).length = z.spots.length := by
  obtain ⟨hs, hm⟩ := hzi
  have hnd1 : z.free.Nodup := hs.nodup
  have hnd2 : ((List.range z.spots.length).filter
      (fun i => decide (z.spots[i]? = some none))).Nodup :=
    (List.nodup_range z.spots.length).filter _
  have hperm : List.Perm z.free ((List.range z.spots.length).filter
      (fun i => decide (z.spots[i]? = some none))) := by
    rw [List.perm_ext_iff_of_nodup hnd1 hnd2]
    intro i
    rw [List.mem_filter, List.mem_range]
    rw [hm i]
    constructor
    · intro hsp
      exact ⟨(List.getElem?_eq_some.mp hsp).1, decide_eq_true hsp⟩
    · intro ⟨_, hd⟩
      exact of_decide_eq_true hd
  rw [hperm.length_eq, filter_range_spots]
  exact filter_split_length z.spots

/-! ## Claims C6 and C7: the reachable-state invariants -/

/-- Claim C6: in every lot state reachable by any sequence of parking and
removal operations from a freshly constructed lot, every zone's free list
is strictly ascending; moreover the release path's `bisect.insort` really
inserts at the sorted position: inserting a fresh element into a strictly
sorted list yields a strictly sorted list containing exactly the old
elements plus the new one. -/
theorem claim_C6_sorted_free (lot : Lot) (h : Reachable lot) :
    (∀ t : ZoneType, ∀ z ∈ lot.zones t, List.Sorted (· < ·) z.free) ∧
    (∀ (l : List Nat) (x : Nat), List.Sorted (· < ·) l → x ∉ l →
      List.Sorted (· < ·) (insort l x) ∧ ∀ a, a ∈ insort l x ↔ a = x ∨ a ∈ l) := by
  refine ⟨?_, fun l x hs hx => ⟨insort_sorted l x hs hx, fun a => insort_mem l x a⟩⟩
  intro t z hz
  exact (((reachable_inv lot h).1) t z hz).2.2.1

theorem c6WitnessLot_reachable : Reachable c6WitnessLot :=
  Reachable.add _ VehicleType.VAN 7 (Reachable.init _ (by
    intro s hs
    rw [List.mem_singleton] at hs
    subst hs
    norm_num))

/-- Witness for C6: a reachable lot with a sorted free list in its cycle
zone. -/
theorem claim_C6_sorted_free_witness :
    Reachable c6WitnessLot ∧
    List.Sorted (· < ·) ((c6WitnessLot.zones ZoneType.CYCLE).headI).free := by
  refine ⟨c6WitnessLot_reachable, ?_⟩
  have hmem : ((c6WitnessLot.zones ZoneType.CYCLE).headI) ∈
      c6WitnessLot.zones ZoneType.CYCLE := by
    show (mkZone ZoneType.CYCLE ((3 : ℚ)/10) 2 false) ∈
      [mkZone ZoneType.CYCLE ((3 : ℚ)/10) 2 false]
    exact List.mem_singleton_self _
  exact (claim_C6_sorted_free _ c6WitnessLot_reachable).1 ZoneType.CYCLE _ hmem

/-- Claim C7: in every reachable lot state and every zone, the length of
the free list plus the number of occupied spot entries equals the zone's
total spot count. -/
theorem claim_C7_conservation (lot : Lot) (h : Reachable lot) :
    ∀ t : ZoneType, ∀ z ∈ lot.zones t,
    z.free.length + (z.spots.filter (fun o => o.isSome)).length = z.spots.length := by
  intro t z hz
  exact zone_conservation z (((reachable_inv lot h).1) t z hz).2.2

/-- Witness for C7 at a reachable lot of the same shape as the C6 one. -/
theorem claim_C7_conservation_witness :
    Reachable c6WitnessLot ∧
    ((c6WitnessLot.zones ZoneType.CYCLE).headI).free.length +
      (((c6WitnessLot.zones ZoneType.CYCLE).headI).spots.filter
        (fun o => o.isSome)).length =
      ((c6WitnessLot.zones ZoneType.CYCLE).headI).spots.length := by
  refine ⟨c6WitnessLot_reachable, ?_⟩
  have hmem : ((c6WitnessLot.zones ZoneType.CYCLE).headI) ∈
      c6WitnessLot.zones ZoneType.CYCLE := by
    show (mkZone ZoneType.CYCLE ((3 : ℚ)/10) 2 false) ∈
      [mkZone ZoneType.CYCLE ((3 : ℚ)/10) 2 false]
    exact List.mem_singleton_self _
  exact claim_C7_conservation _ c6WitnessLot_reachable ZoneType.CYCLE _ hmem

/-- Claim C5 (amended): a successful allocation — single-slot or spanning —
followed immediately by release of the same vehicle restores every zone map
exactly (so the affected zone's free list is its exact, still sorted,
pre-allocate list), and a subsequent single-slot placement in that zone
takes the zone's smallest free index (the head of its sorted free list) —
which is the smallest *freed* index only when the freed run started at the
zone's minimum free index, not in general. -/
theorem claim_C5_round_trip (lot : Lot) (t : VehicleType) (id : Nat) (hinv : LotInv lot)
    (hsucc : (lot.addVehicle t id).2.location ≠ none) :
    ((lot.addVehicle t id).1.removeVehicle (lot.addVehicle t id).2).zones = lot.zones ∧
    (∀ zt zi idxs, (lot.addVehicle t id).2.location = some (zt, zi, idxs) →
      ∃ z, (lot.zones zt)[zi]? = some z ∧ List.Sorted (· < ·) z.free ∧ z.free ≠ [] ∧
        (∀ i ∈ z.free, z.free.headI ≤ i) ∧
        (∀ (lot2 : Lot) (w : Vehicle),
          (lot2.parkSingle z zt zi w).2.location = some (z.type_, zi, [z.free.headI]))) := by
  obtain ⟨hid, htype, lotP, hps, heq⟩ := addVehicle_success lot t id hinv.1 hsucc
  obtain ⟨zt, zi, idxs, z, z2, hvloc, hzel, hzset, hzother, hveh, hmod⟩ := hps
  obtain ⟨m1, m2, m3, m4, m5, m6, m7, m8, m9, m10, m11⟩ := hmod
  have hzilt : zi < (lot.zones zt).length := (List.getElem?_eq_some.mp hzel).1
  obtain ⟨hztype, hzsize, hzinv⟩ := hinv.1 zt z (List.mem_iff_getElem?.mpr ⟨zi, hzel⟩)
  obtain ⟨r1, r2, r3, r4, r5, r6, r7, r8⟩ := releaseFold_spec idxs z2 (lot.addVehicle t id).2.id_
    m5 m11 m8
  have hz3 : idxs.foldl releaseSpot z2 = z := by
    ext1
    · rw [r1, m1]
    · rw [r2, m2]
    · rw [r3, m3]
    · apply List.ext_getElem?
      intro j
      by_cases hj : j ∈ idxs
      · rw [r7 j hj, m7 j hj]
      · rw [r8 j hj, m9 j hj]
    · have hp : List.Perm (idxs.foldl releaseSpot z2).free z.free :=
        r6.trans m10.symm
      have hs1 : List.Sorted (· ≤ ·) (idxs.foldl releaseSpot z2).free := r5.1.le_of_lt
      have hs2 : List.Sorted (· ≤ ·) z.free := hzinv.1.le_of_lt
      exact List.eq_of_perm_of_sorted hp hs1 hs2
  have hrm : (lot.addVehicle t id).1.removeVehicle (lot.addVehicle t id).2 =
      { ((lot.addVehicle t id).1.setZone zt zi (idxs.foldl releaseSpot z2)).bumpCount
          (lot.addVehicle t id).2.type_ (-1) with
        vehicles := eraseA (lot.addVehicle t id).1.vehicles (lot.addVehicle t id).2.id_ } := by
    have hl1 : lookupA (lot.addVehicle t id).1.vehicles (lot.addVehicle t id).2.id_ =
        some (lot.addVehicle t id).2 := by
      rw [heq]
      exact lookupA_setA_self _ _ _
    have hz1 : ((lot.addVehicle t id).1.zones zt)[zi]? = some z2 := by
      rw [heq]
      show (lotP.zones zt)[zi]? = some z2
      rw [hzset]
      exact List.getElem?_set_self hzilt
    rw [Lot.removeVehicle, hl1, hvloc]
    simp only [hz1]
  constructor
  · funext t2
    rw [hrm]
    show (if t2 = zt then ((lot.addVehicle t id).1.zones zt).set zi (idxs.foldl releaseSpot z2)
      else (lot.addVehicle t id).1.zones t2) = lot.zones t2
    by_cases ht2 : t2 = zt
    · subst ht2
      rw [if_pos rfl]
      have hz1 : (lot.addVehicle t id).1.zones t2 = (lot.zones t2).set zi z2 := by
        rw [heq]
        exact hzset
      rw [hz1, List.set_set, hz3]
      exact set_of_getElem (lot.zones t2) zi z hzel
    · rw [if_neg ht2]
      rw [heq]
      show lotP.zones t2 = lot.zones t2
      exact hzother t2 ht2
  · intro zt2 zi2 idxs2 hloc2
    rw [hvloc] at hloc2
    obtain ⟨rfl, rfl, rfl⟩ : zt = zt2 ∧ zi = zi2 ∧ idxs = idxs2 := by
      have := Option.some.inj hloc2
      exact ⟨congrArg Prod.fst this, congrArg (fun q => q.2.1) this,
        congrArg (fun q => q.2.2) this⟩
    refine ⟨z, hzel, hzinv.1, ?_, ?_, ?_⟩
    · intro hc
      have hlen := m10.length_eq
      rw [hc] at hlen
      simp only [List.length_nil, List.length_append] at hlen
      have : idxs ≠ [] := m6
      have hlp : 0 < idxs.length := List.length_pos.mpr m6
      omega
    · intro i hi
      cases hfz : z.free with
      | nil =>
        rw [hfz] at hi
        exact absurd hi (by simp)
      | cons a l =>
        rw [hfz] at hi
        have hs2 := hzinv.1
        rw [hfz] at hs2
        rcases List.mem_cons.mp hi with rfl | hi2
        · simp
        · have := (List.sorted_cons.mp hs2).1 i hi2
          simp only [List.headI]
          omega
    · intro lot2 w
      cases hfz : z.free with
      | nil =>
        exfalso
        have hlen := m10.length_eq
        rw [hfz] at hlen
        simp only [List.length_nil, List.length_append] at hlen
        have hlp : 0 < idxs.length := List.length_pos.mpr m6
        omega
      | cons a l =>
        rw [Lot.parkSingle, hfz]
        rfl

theorem c5Lot_addVan_eval :
    c5Lot.addVehicle VehicleType.VAN 0 =
    ({ (c5Lot.setZone ZoneType.REGULAR 0
          { type_ := ZoneType.REGULAR, size := 1, adjacent := true,
            spots := [none, some 7, some 0, some 0, some 0],
            free := [0] }).bumpCount VehicleType.VAN 3 with
        vehicles := setA ((c5Lot.setZone ZoneType.REGULAR 0
          { type_ := ZoneType.REGULAR, size := 1, adjacent := true,
            spots := [none, some 7, some 0, some 0, some 0],
            free := [0] }).bumpCount VehicleType.VAN 3).vehicles
          0 ({ mkVehicle VehicleType.VAN 0 with
            location := some (ZoneType.REGULAR, 0, [2, 3, 4]) }) },
      { mkVehicle VehicleType.VAN 0 with
        location := some (ZoneType.REGULAR, 0, [2, 3, 4]) }) := by
  have hceil : ⌈(mkVehicle VehicleType.VAN 0).size / c5Zone.size⌉ = (3 : Int) := by
    norm_num [mkVehicle, vehicleSize, c5Zone]
  have hnum : (⌈(mkVehicle VehicleType.VAN 0).size / c5Zone.size⌉).toNat = 3 := by
    rw [hceil]
    rfl
  have hfind : findAdjacentFreeSpots c5Zone.free 3 true = [1] := by
    simp [findAdjacentFreeSpots, findAdjacentAux, c5Zone]
  have hocc : occupyRun c5Zone.spots c5Zone.free 1 (mkVehicle VehicleType.VAN 0).id_ 3
      = ([none, some 7, some 0, some 0, some 0], [0], [2, 3, 4]) := by decide
  have hpark : c5Lot.parkAdjacent c5Zone ZoneType.REGULAR 0 (mkVehicle VehicleType.VAN 0) =
      ((c5Lot.setZone ZoneType.REGULAR 0
          { type_ := ZoneType.REGULAR, size := 1, adjacent := true,
            spots := [none, some 7, some 0, some 0, some 0],
            free := [0] }).bumpCount VehicleType.VAN 3,
        { mkVehicle VehicleType.VAN 0 with
          location := some (ZoneType.REGULAR, 0, [2, 3, 4]) }) := by
    rw [Lot.parkAdjacent, hnum, hfind]
    simp only [hocc]
    rfl
  have hzone : c5Lot.parkZonesOfType (mkVehicle VehicleType.VAN 0) ZoneType.REGULAR
      (c5Lot.zones ZoneType.REGULAR) 0 =
      ((c5Lot.setZone ZoneType.REGULAR 0
          { type_ := ZoneType.REGULAR, size := 1, adjacent := true,
            spots := [none, some 7, some 0, some 0, some 0],
            free := [0] }).bumpCount VehicleType.VAN 3,
        { mkVehicle VehicleType.VAN 0 with
          location := some (ZoneType.REGULAR, 0, [2, 3, 4]) }, true) := by
    have hstep := parkZonesOfType_adjacent c5Lot (mkVehicle VehicleType.VAN 0) ZoneType.REGULAR
      c5Zone [] 0 (by decide) (by norm_num [mkVehicle, vehicleSize, c5Zone]) rfl
    have hz2 : c5Lot.zones ZoneType.REGULAR = [c5Zone] := rfl
    rw [hz2, hstep, hpark]
  have hpfa : c5Lot.parkFirstAvailable (mkVehicle VehicleType.VAN 0) =
      ((c5Lot.setZone ZoneType.REGULAR 0
          { type_ := ZoneType.REGULAR, size := 1, adjacent := true,
            spots := [none, some 7, some 0, some 0, some 0],
            free := [0] }).bumpCount VehicleType.VAN 3,
        { mkVehicle VehicleType.VAN 0 with
          location := some (ZoneType.REGULAR, 0, [2, 3, 4]) }) := by
    show c5Lot.parkPriority (mkVehicle VehicleType.VAN 0)
      [ZoneType.LARGE, ZoneType.REGULAR] = _
    rw [parkPriority_notParked c5Lot c5Lot (mkVehicle VehicleType.VAN 0)
      (mkVehicle VehicleType.VAN 0) ZoneType.LARGE [ZoneType.REGULAR] rfl]
    exact parkPriority_parked _ _ _ _ _ _ hzone
  rw [addVehicle_placed c5Lot VehicleType.VAN 0 (ZoneType.REGULAR, 0, [2, 3, 4])
    (by rw [hpfa])]
  rw [hpfa]
  rfl

/-- Counterexample to C5 as stated: the van is placed on the run `[2, 3, 4]`
(the zone's first contiguous run of three), releasing it restores the free
list `[0, 2, 3, 4]`, and the next single-slot request (a car) is given spot
0 — the zone's smallest free index — which is not one of the freed indices,
so it is not "the smallest freed index" (that would be 2). -/
theorem claim_C5_smallest_freed_counterexample :
    (c5Lot.addVehicle VehicleType.VAN 0).2.location = some (ZoneType.REGULAR, 0, [2, 3, 4]) ∧
    (((c5Lot.addVehicle VehicleType.VAN 0).1.removeVehicle
        (c5Lot.addVehicle VehicleType.VAN 0).2).zones ZoneType.REGULAR).headI.free
      = [0, 2, 3, 4] ∧
    (((c5Lot.addVehicle VehicleType.VAN 0).1.removeVehicle
        (c5Lot.addVehicle VehicleType.VAN 0).2).addVehicle VehicleType.CAR 1).2.location
      = some (ZoneType.REGULAR, 0, [0]) ∧
    (0 : Nat) ∉ ([2, 3, 4] : List Nat) := by
  rw [c5Lot_addVan_eval]
  refine ⟨rfl, rfl, ?_, by decide⟩
  have hz3 : ((({ (c5Lot.setZone ZoneType.REGULAR 0
          { type_ := ZoneType.REGULAR, size := 1, adjacent := true,
            spots := [none, some 7, some 0, some 0, some 0],
            free := [0] }).bumpCount VehicleType.VAN 3 with
        vehicles := setA ((c5Lot.setZone ZoneType.REGULAR 0
          { type_ := ZoneType.REGULAR, size := 1, adjacent := true,
            spots := [none, some 7, some 0, some 0, some 0],
            free := [0] }).bumpCount VehicleType.VAN 3).vehicles
          0 ({ mkVehicle VehicleType.VAN 0 with
            location := some (ZoneType.REGULAR, 0, [2, 3, 4]) }) },
      { mkVehicle VehicleType.VAN 0 with
        location := some (ZoneType.REGULAR, 0, [2, 3, 4]) }).1.removeVehicle
      ({ mkVehicle VehicleType.VAN 0 with
        location := some (ZoneType.REGULAR, 0, [2, 3, 4]) })).zones ZoneType.REGULAR)
      = [c5Zone] := rfl
  have hcar : ∀ lotR : Lot, lotR.zones ZoneType.COMPACT = [] →
      lotR.zones ZoneType.REGULAR = [c5Zone] →
      (lotR.addVehicle VehicleType.CAR 1).2.location = some (ZoneType.REGULAR, 0, [0]) := by
    intro lotR hcompact hreg
    have hzone : lotR.parkZonesOfType (mkVehicle VehicleType.CAR 1) ZoneType.REGULAR
        (lotR.zones ZoneType.REGULAR) 0 =
        ((lotR.parkSingle c5Zone ZoneType.REGULAR 0 (mkVehicle VehicleType.CAR 1)).1,
          (lotR.parkSingle c5Zone ZoneType.REGULAR 0 (mkVehicle VehicleType.CAR 1)).2,
          true) := by
      rw [hreg]
      exact parkZonesOfType_single lotR (mkVehicle VehicleType.CAR 1) ZoneType.REGULAR
        c5Zone [] 0 (by decide) (by norm_num [mkVehicle, vehicleSize, c5Zone])
    have hpfa : lotR.parkFirstAvailable (mkVehicle VehicleType.CAR 1) =
        ((lotR.parkSingle c5Zone ZoneType.REGULAR 0 (mkVehicle VehicleType.CAR 1)).1,
          (lotR.parkSingle c5Zone ZoneType.REGULAR 0 (mkVehicle VehicleType.CAR 1)).2) := by
      show lotR.parkPriority (mkVehicle VehicleType.CAR 1)
        [ZoneType.COMPACT, ZoneType.REGULAR, ZoneType.LARGE] = _
      rw [parkPriority_notParked lotR lotR (mkVehicle VehicleType.CAR 1)
        (mkVehicle VehicleType.CAR 1) ZoneType.COMPACT [ZoneType.REGULAR, ZoneType.LARGE]
        (by rw [hcompact]; exact parkZonesOfType_nil _ _ _ _)]
      exact parkPriority_parked _ _ _ _ _ _ hzone
    have hloc : (lotR.parkSingle c5Zone ZoneType.REGULAR 0
        (mkVehicle VehicleType.CAR 1)).2.location = some (ZoneType.REGULAR, 0, [0]) := by
      rw [Lot.parkSingle]
      rfl
    rw [Lot.addVehicle]
    rw [hpfa]
    simp only [hloc]
  exact hcar _ rfl hz3

theorem vanLot_inv : LotInv vanLot := by
  apply mkLot_inv
  intro z hz
  rw [List.mem_singleton] at hz
  subst hz
  exact mkZone_inv ZoneType.REGULAR 1 3 true (by norm_num)

/-- Witness for the amended C5 at a fully free three-spot spanning zone:
the van occupies `[0, 1, 2]` and the round trip restores the lot. -/
theorem claim_C5_round_trip_witness :
    LotInv vanLot ∧ (vanLot.addVehicle VehicleType.VAN 0).2.location ≠ none ∧
    (((vanLot.addVehicle VehicleType.VAN 0).1.removeVehicle
        (vanLot.addVehicle VehicleType.VAN 0).2).zones = vanLot.zones ∧
      (∀ zt zi idxs, (vanLot.addVehicle VehicleType.VAN 0).2.location = some (zt, zi, idxs) →
        ∃ z, (vanLot.zones zt)[zi]? = some z ∧ List.Sorted (· < ·) z.free ∧ z.free ≠ [] ∧
          (∀ i ∈ z.free, z.free.headI ≤ i) ∧
          (∀ (lot2 : Lot) (w : Vehicle),
            (lot2.parkSingle z zt zi w).2.location =
              some (z.type_, zi, [z.free.headI])))) := by
  have hsucc : (vanLot.addVehicle VehicleType.VAN 0).2.location ≠ none := by
    rw [vanLot_addVehicle_eval]
    simp
  exact ⟨vanLot_inv, hsucc, claim_C5_round_trip vanLot VehicleType.VAN 0 vanLot_inv hsucc⟩
